import Mathlib

/-!
Verification development for the memory store of scripts/memory.py
(with the per-key lock registry of scripts/common_utilities.py).

Strings are modelled as Lean String / List Char.  Library calls of the
Python runtime (unicodedata NFKD / NFC, str.lower, the fts5 engine of
SQLite) are modelled by explicit executable tables and functions, faithful
on the Basic Latin range that the development exercises; timestamps are
modelled as natural numbers ordered like the ISO strings the code stores.
Python floats are modelled as rationals.
-/

namespace MemSpec

/-- Characters treated as whitespace by Python str.strip and str.split. -/
def isPySpace (c : Char) : Bool :=
  c == ' ' || c == '\t' || c == '\n' || c == '\r' || c == '\x0b' || c == '\x0c'

/-- Lowercase ASCII letter test (the a-z part of the code's regexes). -/
def isLowerAlpha (c : Char) : Bool :=
  decide (97 ≤ c.toNat) && decide (c.toNat ≤ 122)

/-- ASCII digit test (the 0-9 part of the code's regexes). -/
def isDigitCh (c : Char) : Bool :=
  decide (48 ≤ c.toNat) && decide (c.toNat ≤ 57)

/-- Character class [a-z0-9] used by _normalize_search_text. -/
def isLowerAlnum (c : Char) : Bool := isLowerAlpha c || isDigitCh c

/-- Character class [a-z0-9_] used by _normalize_key. -/
def keyCharOk (c : Char) : Bool := isLowerAlnum c || c == '_'

/-- EXTRA_CHAR_REPLACEMENTS from scripts/memory.py: curated replacements for
letters that generic Unicode decomposition does not reduce to ASCII. -/
def EXTRA_CHAR_REPLACEMENTS : List (Char × String) :=
  [ ('đ', "d"), ('Đ', "d"), ('ı', "i"), ('İ', "i"), ('ñ', "n"), ('Ñ', "n"),
    ('ç', "c"), ('Ç', "c"), ('ğ', "g"), ('Ğ', "g"), ('ş', "s"), ('Ş', "s"),
    ('ø', "o"), ('Ø', "o"), ('ł', "l"), ('Ł', "l"), ('ß', "ss"),
    ('Æ', "AE"), ('æ', "ae"), ('Œ', "OE"), ('œ', "oe"), ('Þ', "th"),
    ('þ', "th"), ('Ð', "d"), ('ð', "d"), ('Å', "a"), ('å', "a"),
    ('Ä', "a"), ('ä', "a"), ('Ö', "o"), ('ö', "o"), ('Ü', "u"), ('ü', "u") ]

/-- Model of unicodedata NFKD decomposition for the code points exercised
here: precomposed Latin letters decompose into base letter plus combining
mark; every other modelled code point decomposes to itself. -/
def NFKD_TABLE : List (Char × String) :=
  [ ('á', "á"), ('à', "à"), ('â', "â"), ('ã', "ã"),
    ('é', "é"), ('è', "è"), ('ê', "ê"),
    ('í', "í"), ('ó', "ó"), ('ô', "ô"), ('õ', "õ"),
    ('ú', "ú"), ('ý', "ý") ]

/-- NFKD decomposition of a single character (table-driven model). -/
def nfkdChar (c : Char) : List Char :=
  match List.lookup c NFKD_TABLE with
  | some s => s.toList
  | none => [c]

/-- Model of the Unicode combining-mark (category Mn) test: the combining
diacritical marks block U+0300-U+036F, which covers every mark the modelled
NFKD table can produce. -/
def isMn (c : Char) : Bool :=
  decide (768 ≤ c.toNat) && decide (c.toNat ≤ 879)

/-- Model of Python str.lower for one character: ASCII A-Z map to a-z,
modelled non-ASCII uppercase letters map through a table, and every other
code point is left unchanged. -/
def LOWER_TABLE : List (Char × Char) :=
  [ ('Đ', 'đ'), ('Ñ', 'ñ'), ('Ç', 'ç'), ('Ğ', 'ğ'), ('Ş', 'ş'), ('Ø', 'ø'),
    ('Ł', 'ł'), ('Æ', 'æ'), ('Œ', 'œ'), ('Þ', 'þ'), ('Ð', 'ð'), ('Å', 'å'),
    ('Ä', 'ä'), ('Ö', 'ö'), ('Ü', 'ü'), ('Á', 'á'), ('À', 'à'), ('Â', 'â'),
    ('Ã', 'ã'), ('É', 'é'), ('È', 'è'), ('Ê', 'ê'), ('Í', 'í'), ('Ó', 'ó'),
    ('Ô', 'ô'), ('Õ', 'õ'), ('Ú', 'ú'), ('Ý', 'ý') ]

/-- One-character lowercasing (model of str.lower, see LOWER_TABLE). -/
def pyLowerChar (c : Char) : Char :=
  if decide (65 ≤ c.toNat) && decide (c.toNat ≤ 90) then Char.ofNat (c.toNat + 32)
  else (List.lookup c LOWER_TABLE).getD c

/-- Core loop of _strip_diacritics: on the already-decomposed character
stream, apply the curated replacement table, drop combining marks, keep
everything else. -/
def stripDiacriticsCore : List Char → List Char
  | [] => []
  | c :: rest =>
      match List.lookup c EXTRA_CHAR_REPLACEMENTS with
      | some rep => rep.toList ++ stripDiacriticsCore rest
      | none => if isMn c then stripDiacriticsCore rest else c :: stripDiacriticsCore rest

/-- Model of _strip_diacritics from scripts/memory.py: NFKD-decompose, then filter
with the replacement table and the combining-mark test. -/
def stripDiacritics (l : List Char) : List Char :=
  stripDiacriticsCore (l.flatMap nfkdChar)

/-- Replace each maximal run of characters satisfying p by the single
character rep.  This is re.sub of a character-class-plus pattern; the flag
records whether the previous character was inside a run. -/
def collapseRuns (p : Char → Bool) (rep : Char) : Bool → List Char → List Char
  | _, [] => []
  | prevIn, c :: rest =>
      if p c then
        if prevIn then collapseRuns p rep true rest
        else rep :: collapseRuns p rep true rest
      else c :: collapseRuns p rep false rest

/-- Drop the leading run of characters satisfying p (Python lstrip). -/
def dropLeading (p : Char → Bool) (l : List Char) : List Char := l.dropWhile p

/-- Drop the trailing run of characters satisfying p (Python rstrip). -/
def dropTrailing (p : Char → Bool) : List Char → List Char
  | [] => []
  | c :: rest =>
      let r := dropTrailing p rest
      if r.isEmpty && p c then [] else c :: r

/-- Python str.strip with an arbitrary character class. -/
def dropEdge (p : Char → Bool) (l : List Char) : List Char :=
  dropTrailing p (dropLeading p l)

/-- Punctuation classes collapsed first by _normalize_search_text: the
regex [,/_]+ . -/
def isPunctCls (c : Char) : Bool := c == ',' || c == '/' || c == '_'

/-- The character class [^a-z0-9] of _normalize_search_text. -/
def nonAlnum (c : Char) : Bool := !(isLowerAlnum c)

/-- The underscore class of _normalize_key. -/
def underscoreCh (c : Char) : Bool := c == '_'

/-- Model of _normalize_search_text on character lists: lowercase, strip diacritics,
collapse [,/_]+ to a space, collapse any other non-alphanumeric run to a
space, collapse whitespace, trim. -/
def normalizeSearchTextList (l : List Char) : List Char :=
  let lowered := l.map pyLowerChar
  let stripped := stripDiacritics lowered
  let c1 := collapseRuns isPunctCls ' ' false stripped
  let c2 := collapseRuns nonAlnum ' ' false c1
  let c3 := collapseRuns isPySpace ' ' false c2
  dropEdge isPySpace c3

/-- Model of _normalize_search_text from scripts/memory.py. -/
def normalizeSearchText (s : String) : String :=
  String.mk (normalizeSearchTextList s.toList)

/-- Model of _normalize_tags from scripts/memory.py (delegates to search-text
normalization). -/
def normalizeTags (s : String) : String := normalizeSearchText s

/-- Model of _normalize_key on character lists: trim, lowercase, strip diacritics,
map every character outside [a-z0-9_] to an underscore, collapse underscore
runs, trim underscores. -/
def normalizeKeyList (l : List Char) : List Char :=
  let t := dropEdge isPySpace l
  let lowered := t.map pyLowerChar
  let stripped := stripDiacritics lowered
  let mapped := stripped.map (fun c => if keyCharOk c then c else '_')
  let collapsed := collapseRuns underscoreCh '_' false mapped
  dropEdge underscoreCh collapsed

/-- Model of _normalize_key from scripts/memory.py. -/
def normalizeKey (s : String) : String :=
  String.mk (normalizeKeyList s.toList)

/-- Model of _normalize_value from scripts/memory.py applies unicodedata NFC only;
NFC is the identity on the code points modelled in this development. -/
def normalizeValue (s : String) : String := s

/-- Python str.split with no separator: split on whitespace runs, dropping
empty pieces.  The first argument accumulates the current word reversed. -/
def splitWordsAux (cur : List Char) : List Char → List (List Char)
  | [] => if cur.isEmpty then [] else [cur.reverse]
  | c :: rest =>
      if isPySpace c then
        if cur.isEmpty then splitWordsAux [] rest
        else cur.reverse :: splitWordsAux [] rest
      else splitWordsAux (c :: cur) rest

/-- Python str.split() on a Lean string. -/
def pySplit (s : String) : List String :=
  (splitWordsAux [] s.toList).map String.mk

/-- Model of _tokenize_query from scripts/memory.py: normalized word tokens. -/
def tokenizeQuery (q : String) : List String :=
  let n := normalizeSearchText q
  if n = "" then [] else pySplit n

/-! Constants of scripts/memory.py. -/

def EXPIRATION_MAX_DAYS : Int := 3650

def SEARCH_LIMIT_MAX : Nat := 50

def NEAR_DISTANCE : Nat := 5

def CANDIDATE_CHECK_LIMIT : Nat := 5

def HOUSEKEEPING_GRACE_MAX_DAYS : Nat := 365

def VALUE_PREVIEW_CHARS : Nat := 120

def BM25_WEIGHT : Rat := mkRat 1 2

/-! The standard Rat operations of Batteries are irreducible by design,
which stops kernel evaluation of concrete scores; the following wrappers
compute the same values through mkRat and divInt, and the bridging lemmas
below identify them with the standard operations. -/

/-- Kernel-computable rational addition. -/
def qAdd (a b : Rat) : Rat := mkRat (a.num * b.den + b.num * a.den) (a.den * b.den)

/-- Kernel-computable rational subtraction. -/
def qSub (a b : Rat) : Rat := qAdd a (-b)

/-- Kernel-computable rational multiplication. -/
def qMul (a b : Rat) : Rat := mkRat (a.num * b.num) (a.den * b.den)

/-- Kernel-computable rational inverse. -/
def qInv (a : Rat) : Rat := Rat.divInt a.den a.num

/-- Kernel-computable rational division. -/
def qDiv (a b : Rat) : Rat := qMul a (qInv b)

/-- Kernel-computable rational maximum. -/
def qMax (a b : Rat) : Rat := if a ≤ b then b else a

theorem qAdd_eq (a b : Rat) : qAdd a b = a + b := (Rat.add_def' a b).symm

theorem qSub_eq (a b : Rat) : qSub a b = a - b := by
  rw [qSub, qAdd_eq, sub_eq_add_neg]

theorem qMul_eq (a b : Rat) : qMul a b = a * b := by
  rw [qMul, Rat.mul_def, Rat.normalize_eq_mkRat]

theorem qInv_eq (a : Rat) : qInv a = a⁻¹ := (Rat.inv_def a).symm

theorem qDiv_eq (a b : Rat) : qDiv a b = a / b := by
  rw [qDiv, qMul_eq, qInv_eq, div_eq_mul_inv]

theorem qMax_eq (a b : Rat) : qMax a b = max a b := by
  unfold qMax
  split
  · exact (max_eq_right (by assumption)).symm
  · exact (max_eq_left (le_of_not_le (by assumption))).symm

/-- Blend of the lexical (bm25) score with the Jaccard score; this is the
tail of _calculate_match_score once a jaccard value has been fixed.  A
present rank models a numeric bm25_raw, a missing one models None. -/
def blendScore (bm25Raw : Option Rat) (jaccard : Rat) : Rat :=
  match bm25Raw with
  | some r => qAdd (qMul BM25_WEIGHT (qDiv 1 (qAdd 1 (qMax r 0))))
      (qMul (qSub 1 BM25_WEIGHT) jaccard)
  | none => jaccard

/-- The blend, written with the standard field operations. -/
theorem blendScore_eq (bm25Raw : Option Rat) (jaccard : Rat) :
    blendScore bm25Raw jaccard =
      match bm25Raw with
      | some r => BM25_WEIGHT * (1 / (1 + max r 0)) + (1 - BM25_WEIGHT) * jaccard
      | none => jaccard := by
  cases bm25Raw with
  | none => rfl
  | some r => simp only [blendScore, qAdd_eq, qMul_eq, qDiv_eq, qSub_eq, qMax_eq]

/-- Python sets of tokens are modelled as first-seen-deduplicated lists;
every caller below deduplicates before calling, so lengths of the
intersection and union lists are the set cardinalities. -/
def tokenInter (q c : List String) : List String :=
  q.filter (fun t => c.contains t)

/-- The union of two token sets (as deduplicated lists, see tokenInter). -/
def tokenUnion (q c : List String) : List String :=
  q ++ c.filter (fun t => !(q.contains t))

/-- Model of _calculate_match_score from scripts/memory.py.  Note the early return:
when both token sets are nonempty but disjoint the function returns 0
without consulting the bm25 signal; when either set is empty it falls
through to the blend with a Jaccard score of 0. -/
def calculateMatchScore (sourceTokens candidateTokens : List String)
    (bm25Raw : Option Rat) : Rat :=
  if sourceTokens.isEmpty ∨ candidateTokens.isEmpty then blendScore bm25Raw 0
  else if (tokenInter sourceTokens candidateTokens).isEmpty then 0
  else
    let unionSize := (tokenUnion sourceTokens candidateTokens).length
    let denom := if unionSize = 0 then 1 else unionSize
    blendScore bm25Raw
      (qDiv ((tokenInter sourceTokens candidateTokens).length : Rat) (denom : Rat))

/-! The data model: one durable table row (mem) per key. -/

/-- A row of the mem table. -/
structure MemRow where
  key : String
  value : String
  scope : String
  tags : String
  tags_search : String
  created_at : Nat
  last_used_at : Nat
  expires_at : Option Nat

deriving instance DecidableEq, Repr for MemRow

/-- The persistent store: the list of mem rows. -/
def Store := List MemRow

deriving instance DecidableEq for Store

/-- A search-result or candidate record as built by _memory_search_db_sync
and _condense_candidate_for_selection (key, value, scope, tags, the three
timestamps and the computed match score). -/
structure ResultEntry where
  key : String
  value : String
  scope : String
  tags : String
  created_at : Nat
  last_used_at : Nat
  expires_at : Option Nat
  match_score : Rat

deriving instance DecidableEq, Repr for ResultEntry

/-- Model of _condense_candidate_for_selection: trim the value to the preview length
and attach the score. -/
def condenseCandidate (e : ResultEntry) (score : Rat) : ResultEntry :=
  let v := if VALUE_PREVIEW_CHARS < e.value.length
    then String.mk (e.value.toList.take (VALUE_PREVIEW_CHARS - 3)) ++ "..."
    else e.value
  { e with value := v, match_score := score }

/-! The query planner (_build_fts_queries and _near_distance_for_tokens). -/

/-- Model of _near_distance_for_tokens from scripts/memory.py. -/
def nearDistanceForTokens (n : Nat) : Nat :=
  if n ≤ 1 then 0
  else
    let val := 2 * n - 1
    let v2 := if val < 3 then 3 else val
    if NEAR_DISTANCE < v2 then NEAR_DISTANCE else v2

/-- A structured fts5 MATCH expression, as assembled by _build_fts_queries;
renderFts produces the literal MATCH string the code hands to SQLite. -/
inductive FtsQuery
  | phraseQ (toks : List String)
  | nearQ (toks : List String) (dist : Nat)
  | andQ (toks : List String)
  | orStarQ (toks : List String)
  | plainQ (s : String)

deriving instance DecidableEq, Repr for FtsQuery

/-- The literal MATCH string for a structured variant, exactly the strings
_build_fts_queries builds. -/
def renderFts : FtsQuery → String
  | FtsQuery.phraseQ toks => "\"" ++ String.intercalate " " toks ++ "\""
  | FtsQuery.nearQ toks dist =>
      "NEAR(" ++ String.intercalate " " toks ++ ", " ++ toString dist ++ ")"
  | FtsQuery.andQ toks => String.intercalate " AND " toks
  | FtsQuery.orStarQ toks => String.intercalate " OR " (toks.map (fun t => t ++ "*"))
  | FtsQuery.plainQ s => s

/-- The ordered variant list of _build_fts_queries before deduplication:
phrase (2+ tokens), NEAR (2+ tokens), AND (or the single token, which
renders to the same string), OR with prefix wildcards, the normalized
query, the trimmed raw query. -/
def ftsVariantList (rawQuery : String) : List FtsQuery :=
  let nq := normalizeSearchText rawQuery
  let toks := if nq = "" then [] else pySplit nq
  let tokenVariants :=
    if toks.isEmpty then []
    else
      (if 2 ≤ toks.length then [FtsQuery.phraseQ toks] else []) ++
      (if 2 ≤ toks.length then [FtsQuery.nearQ toks (nearDistanceForTokens toks.length)] else []) ++
      [FtsQuery.andQ toks, FtsQuery.orStarQ toks]
  let v5 := if nq = "" then [] else [FtsQuery.plainQ nq]
  let rq := String.mk (dropEdge isPySpace rawQuery.toList)
  let v6 := if rq = "" then [] else [FtsQuery.plainQ rq]
  tokenVariants ++ v5 ++ v6

/-- Order-preserving first-seen deduplication of strings (the seen-set loop
closing _build_fts_queries). -/
def dedupSeen (seen : List String) : List String → List String
  | [] => []
  | x :: rest =>
      if seen.contains x then dedupSeen seen rest
      else x :: dedupSeen (x :: seen) rest

/-- Order-preserving deduplication of strings, keeping first occurrences. -/
def dedupKeepFirst (l : List String) : List String := dedupSeen [] l

/-- Model of _build_fts_queries from scripts/memory.py: the ordered, deduplicated
list of MATCH strings. -/
def buildFtsQueries (rawQuery : String) : List String :=
  dedupKeepFirst ((ftsVariantList rawQuery).map renderFts)

/-- Structured counterpart used by the search model: same variants, same
first-seen deduplication keyed by the rendered MATCH string. -/
def dedupVariantsSeen (seen : List String) : List FtsQuery → List FtsQuery
  | [] => []
  | q :: rest =>
      if seen.contains (renderFts q) then dedupVariantsSeen seen rest
      else q :: dedupVariantsSeen (renderFts q :: seen) rest

/-- The deduplicated structured variant list handed to the fts engine. -/
def buildFtsVariants (rawQuery : String) : List FtsQuery :=
  dedupVariantsSeen [] (ftsVariantList rawQuery)

/-! Model of the fts5 index and MATCH evaluation.  The index holds the
(key, value, tags_search) projection of every row (kept in lockstep by the
triggers of _ensure_db); cells are tokenized by the unicode61
remove_diacritics tokenizer, modelled by the same lowercase/strip/split
pipeline as the query side. -/

/-- Does the pattern sequence occur at the head of the text sequence. -/
def seqStarts [BEq α] : List α → List α → Bool
  | [], _ => true
  | _ :: _, [] => false
  | p :: ps, x :: xs => p == x && seqStarts ps xs

/-- Does the pattern sequence occur contiguously anywhere in the text. -/
def hasSeq [BEq α] (pat : List α) : List α → Bool
  | [] => seqStarts pat []
  | x :: xs => seqStarts pat (x :: xs) || hasSeq pat xs

/-- Tokenization of an indexed cell (model of the unicode61 tokenizer with
remove_diacritics, which the schema configures for mem_fts). -/
def ftsTokenize (s : String) : List String :=
  pySplit (normalizeSearchText s)

/-- The three indexed columns of a row, tokenized. -/
def ftsCols (r : MemRow) : List (List String) :=
  [ftsTokenize r.key, ftsTokenize r.value, ftsTokenize r.tags_search]

/-- Does some column of the row contain the token. -/
def rowHasToken (r : MemRow) (t : String) : Bool :=
  (ftsCols r).any (fun col => col.contains t)

/-- Are all of the tokens inside the window. -/
def windowHasAll (toks window : List String) : Bool :=
  toks.all (fun t => window.contains t)

/-- NEAR evaluation on one column: all tokens occur within a window of
dist+1 consecutive column tokens (model of fts5 proximity). -/
def nearMatchCol (toks : List String) (dist : Nat) : List String → Bool
  | [] => windowHasAll toks []
  | x :: xs => windowHasAll toks ((x :: xs).take (dist + 1)) || nearMatchCol toks dist xs

/-- MATCH evaluation of one structured variant against one row.  A phrase
must be contiguous inside a single column; NEAR is evaluated per column;
AND and the implicit AND of a plain query require every token somewhere in
the row; OR-with-star accepts a token that is a prefix of some column token.
An unparsable or empty plain query matches nothing (the code catches the
sqlite3 error for that variant and skips it). -/
def ftsRowMatch (q : FtsQuery) (r : MemRow) : Bool :=
  match q with
  | FtsQuery.phraseQ toks => (ftsCols r).any (fun col => hasSeq toks col)
  | FtsQuery.nearQ toks dist => (ftsCols r).any (fun col => nearMatchCol toks dist col)
  | FtsQuery.andQ toks => toks.all (fun t => rowHasToken r t)
  | FtsQuery.orStarQ toks =>
      toks.any (fun t => (ftsCols r).any (fun col =>
        col.any (fun w => seqStarts t.toList w.toList)))
  | FtsQuery.plainQ s =>
      let toks := ftsTokenize s
      !toks.isEmpty && toks.all (fun t => rowHasToken r t)

/-- The rank fts5 reports for a matching row.  The fts5 bm25 rank is always
nonpositive (better matches are more negative) and it reaches the score
only through max(rank, 0) = 0, so a single representative value models it
faithfully. -/
def ftsRank : Rat := -1

/-- Stable insertion of a row into a list sorted by last_used_at
descending (the ORDER BY of the search queries; ranks are tied in this
model, see ftsRank). -/
def insertRowDesc (x : MemRow) : List MemRow → List MemRow
  | [] => [x]
  | y :: rest =>
      if y.last_used_at ≤ x.last_used_at then x :: y :: rest
      else y :: insertRowDesc x rest

/-- Stable sort of rows by last_used_at descending. -/
def sortRowsDesc : List MemRow → List MemRow
  | [] => []
  | x :: rest => insertRowDesc x (sortRowsDesc rest)

/-- Inner row loop of _memory_search_db_sync: append fetched rows whose key
is unseen, stopping once the limit is reached. -/
def addRows (limit : Nat) : List MemRow → List MemRow → List MemRow
  | acc, [] => acc
  | acc, r :: rest =>
      let acc2 := if acc.any (fun x => x.key == r.key) then acc else acc ++ [r]
      if limit ≤ acc2.length then acc2 else addRows limit acc2 rest

/-- Outer variant loop of _memory_search_db_sync: try each MATCH variant in
order, each time fetching up to limit matching rows ordered by rank then
last_used_at descending, until enough distinct keys are found. -/
def ftsAccum (db : List MemRow) (limit : Nat) : List FtsQuery → List MemRow → List MemRow
  | [], acc => acc
  | mv :: rest, acc =>
      if limit ≤ acc.length then acc
      else
        let fetched := (sortRowsDesc (db.filter (fun r => ftsRowMatch mv r))).take limit
        ftsAccum db limit rest (addRows limit acc fetched)

/-- ASCII-only lowercasing of one character (SQLite LIKE is
case-insensitive on ASCII only). -/
def asciiLowerChar (c : Char) : Char :=
  if decide (65 ≤ c.toNat) && decide (c.toNat ≤ 90) then Char.ofNat (c.toNat + 32) else c

/-- LIKE with percent on both sides: case-insensitive (ASCII) substring
containment. -/
def likeContains (pat s : String) : Bool :=
  hasSeq (pat.toList.map asciiLowerChar) (s.toList.map asciiLowerChar)

/-- The LIKE fallback predicate of _memory_search_db_sync over value, tags,
tags_search and key. -/
def likeRowMatch (nq : String) (r : MemRow) : Bool :=
  likeContains nq r.value || likeContains nq r.tags ||
  likeContains nq r.tags_search || likeContains nq r.key

/-- Scoring loop body of _memory_search_db_sync: tokens come from
tags_search, falling back to normalizing tags when tags_search is empty. -/
def scoreRow (queryTokens : List String) (rank : Option Rat) (r : MemRow) : ResultEntry :=
  let candidateSource := if r.tags_search ≠ "" then r.tags_search else normalizeTags r.tags
  let candidateTokens := dedupKeepFirst (pySplit candidateSource)
  { key := r.key, value := r.value, scope := r.scope, tags := r.tags,
    created_at := r.created_at, last_used_at := r.last_used_at,
    expires_at := r.expires_at,
    match_score := calculateMatchScore queryTokens candidateTokens rank }

/-- Model of _memory_search_db_sync from scripts/memory.py: try the MATCH variants,
fall back to LIKE when they produce nothing, then attach a match score to
every fetched row (no zero-score filtering happens here). -/
def memorySearchDbSync (db : List MemRow) (query : String) (limit : Nat) : List ResultEntry :=
  let nq := normalizeSearchText query
  let queryTokens : List String := if nq = "" then [] else dedupKeepFirst (pySplit nq)
  let ftsRows := ftsAccum db limit (buildFtsVariants query) []
  if ftsRows.isEmpty then
    let likeRows := (sortRowsDesc (db.filter (fun r => likeRowMatch nq r))).take limit
    likeRows.map (fun r => scoreRow queryTokens none r)
  else
    ftsRows.map (fun r => scoreRow queryTokens (some ftsRank) r)

/-! Tag-similarity candidates (_search_tag_candidates and
_find_tag_matches_for_query). -/

/-- Deduplication loop of _search_tag_candidates: walk the raw search
results, skip empty, excluded and already-seen normalized keys, skip
entries whose score is not positive, and keep the rest in first-seen
order.  The match_score of a search result is always numeric in this
model, so the non-numeric recomputation branch of the source is
unreachable. -/
def dedupCands (excl : List String) : List ResultEntry → List String →
    List (String × ResultEntry × Rat)
  | [], _ => []
  | item :: rest, seen =>
      let ek := normalizeKey item.key
      if ek = "" || excl.contains ek || seen.contains ek then
        dedupCands excl rest seen
      else if item.match_score ≤ 0 then dedupCands excl rest seen
      else (ek, item, item.match_score) :: dedupCands excl rest (ek :: seen)

/-- Stable insertion for candidate triples sorted by score descending
(Python sorted with reverse=True is stable). -/
def insertCandDesc (x : String × ResultEntry × Rat) :
    List (String × ResultEntry × Rat) → List (String × ResultEntry × Rat)
  | [] => [x]
  | y :: rest =>
      if y.2.2 ≤ x.2.2 then x :: y :: rest
      else y :: insertCandDesc x rest

/-- Stable sort of candidate triples by score descending. -/
def sortCandDesc : List (String × ResultEntry × Rat) → List (String × ResultEntry × Rat)
  | [] => []
  | x :: rest => insertCandDesc x (sortCandDesc rest)

/-- Model of _search_tag_candidates from scripts/memory.py: normalize the source
text, search the store with it, deduplicate by normalized key, drop
non-positive scores, sort by score descending and truncate. -/
def searchTagCandidates (db : List MemRow) (source : String)
    (excludeKeys : List String) (limitArg : Option Nat) : List (ResultEntry × Rat) :=
  let ts := normalizeTags source
  if ts = "" then []
  else
    let tagTokens := pySplit ts
    if tagTokens.isEmpty then []
    else
      let lv0 := limitArg.getD (min CANDIDATE_CHECK_LIMIT SEARCH_LIMIT_MAX)
      let lv := max 1 (min lv0 SEARCH_LIMIT_MAX)
      let rawMatches := memorySearchDbSync db ts lv
      if rawMatches.isEmpty then []
      else
        let exclNorm := (excludeKeys.filter (fun k => k ≠ "")).map normalizeKey
        let dd := dedupCands exclNorm rawMatches []
        if dd.isEmpty then []
        else ((sortCandDesc dd).map (fun t => (t.2.1, t.2.2))).take lv

/-- Model of _find_tag_matches_for_query from scripts/memory.py: the candidates,
condensed for display with their scores attached. -/
def findTagMatchesForQuery (db : List MemRow) (source : String)
    (excludeKeys : List String) : List ResultEntry :=
  (searchTagCandidates db source excludeKeys none).map
    (fun p => condenseCandidate p.1 p.2)

/-! Store primitives (the _..._db_sync helpers).  The bounded
invalidate-and-retry wrapper around each helper only re-runs schema setup
on a transient sqlite error and does not change the data semantics, so the
model keeps the body of each helper. -/

/-- Model of _memory_key_exists_db_sync. -/
def memoryKeyExists (db : List MemRow) (keyNorm : String) : Bool :=
  db.any (fun r => r.key == keyNorm)

/-- Model of _fetch_with_expiry from scripts/memory.py: fetch the row and report
whether it is expired; never deletes the row.  A stored expiry parses
successfully in this model handling of timestamps. -/
def fetchWithExpiry (db : List MemRow) (keyNorm : String) (now : Nat) :
    Bool × Option MemRow :=
  match db.find? (fun r => r.key == keyNorm) with
  | none => (false, none)
  | some row =>
      match row.expires_at with
      | some t => if t < now then (true, some row) else (false, some row)
      | none => (false, some row)

/-- The INSERT ... ON CONFLICT(key) DO UPDATE of _memory_set_db_sync: an
update replaces value, scope, tags, tags_search, last_used_at and
expires_at but keeps created_at; an insert sets created_at and
last_used_at to now. -/
def upsertRow (db : List MemRow) (keyNorm valueNorm scopeNorm tagsRaw tagsSearch : String)
    (nowIso : Nat) (expiresAt : Option Nat) : List MemRow :=
  if db.any (fun r => r.key == keyNorm) then
    db.map (fun r =>
      if r.key == keyNorm then
        { r with value := valueNorm, scope := scopeNorm, tags := tagsRaw,
                 tags_search := tagsSearch, last_used_at := nowIso,
                 expires_at := expiresAt }
      else r)
  else
    db ++ [{ key := keyNorm, value := valueNorm, scope := scopeNorm,
             tags := tagsRaw, tags_search := tagsSearch, created_at := nowIso,
             last_used_at := nowIso, expires_at := expiresAt }]

/-- Result of _memory_get_db_sync before the service layer shapes it. -/
inductive DbGet
  | notFound
  | expiredRow (row : MemRow)
  | okRow (row : MemRow)

deriving instance DecidableEq, Repr for DbGet

/-- Model of _memory_get_db_sync from scripts/memory.py: the expired branch returns
before the UPDATE of last_used_at runs, so only an ok read refreshes the
access time. -/
def memoryGetDbSync (db : List MemRow) (keyNorm : String) (now : Nat) :
    DbGet × List MemRow :=
  match fetchWithExpiry db keyNorm now with
  | (_, none) => (DbGet.notFound, db)
  | (true, some row) => (DbGet.expiredRow row, db)
  | (false, some row) =>
      (DbGet.okRow { row with last_used_at := now },
       db.map (fun r => if r.key == keyNorm then { r with last_used_at := now } else r))

/-- Model of _memory_forget_db_sync: delete by key, report the number of rows
removed. -/
def memoryForgetDbSync (db : List MemRow) (keyNorm : String) : Nat × List MemRow :=
  ((db.filter (fun r => r.key == keyNorm)).length,
   db.filter (fun r => !(r.key == keyNorm)))

/-- Model of _memory_purge_expired_db_sync: delete rows whose expiry is older than
now minus the grace window, report how many were removed. -/
def memoryPurgeExpiredDbSync (db : List MemRow) (now graceDays : Nat) : Nat × List MemRow :=
  let cutoff := now - graceDays
  let isPurged := fun (r : MemRow) =>
    match r.expires_at with
    | some t => decide (t < cutoff)
    | none => false
  ((db.filter isPurged).length, db.filter (fun r => !(isPurged r)))

/-! Service operations (memory_set, memory_get, memory_forget).  Responses
are modelled as inductives whose constructors correspond to the structured
result dictionaries; the status/error strings of the dictionaries are
recorded in the constructor arguments. -/

/-- Clamp of expiration_days in memory_set to [0, EXPIRATION_MAX_DAYS]. -/
def clampExpiration (e : Int) : Nat :=
  if e < 0 then 0
  else if EXPIRATION_MAX_DAYS < e then EXPIRATION_MAX_DAYS.toNat
  else e.toNat

/-- Scope normalization of memory_set: strip, lowercase, default to
user when empty. -/
def scopeNormOf (scope : String) : String :=
  let t := String.mk ((dropEdge isPySpace scope.toList).map pyLowerChar)
  if t = "" then "user" else t

/-- tags_raw of memory_set: the supplied tags, or the key when tags are
empty (both NFC-normalized). -/
def memSetTagsRaw (key tags : String) : String :=
  if tags ≠ "" then normalizeValue tags else normalizeValue key

/-- tags_search of memory_set. -/
def memSetTagsSearch (key tags : String) : String :=
  normalizeTags (memSetTagsRaw key tags)

/-- expires_at of memory_set: now plus the clamped number of days, none
when the clamped value is zero (time is counted in days here). -/
def memSetExpires (now : Nat) (expirationDays : Int) : Option Nat :=
  if clampExpiration expirationDays ≠ 0
  then some (now + clampExpiration expirationDays) else none

/-- Duplicate candidates computed by memory_set: only consulted for a
brand-new key with nonempty normalized tags. -/
def memSetDupCands (db : List MemRow) (key tags : String) : List (ResultEntry × Rat) :=
  if memoryKeyExists db (normalizeKey key) = false ∧ memSetTagsSearch key tags ≠ "" then
    searchTagCandidates db (memSetTagsSearch key tags) [normalizeKey key]
      (some CANDIDATE_CHECK_LIMIT)
  else []

/-- The condensed duplicate candidate list attached to responses. -/
def memSetDupOptions (db : List MemRow) (key tags : String) : List ResultEntry :=
  (memSetDupCands db key tags).map (fun p => condenseCandidate p.1 p.2)

/-- Response of memory_set: the validation error, the duplicate_tags error
with its candidate list, or the ok response with key_exists and
force_new_applied. -/
inductive SetResp
  | missing (key : String) (code : String)
  | dupErr (key : String) (tags : String) (matchList : List ResultEntry)
  | okResp (key : String) (value : String) (scope : String) (tags : String)
      (expires_at : Option Nat) (key_exists : Bool) (force_new_applied : Bool)
      (duplicate_matches : List ResultEntry)

deriving instance DecidableEq, Repr for SetResp

/-- memory_set from scripts/memory.py.  A missing value is modelled by
none; an absent record write never happens on the duplicate_tags path. -/
def memorySet (db : List MemRow) (now : Nat) (key : String) (value : Option String)
    (scope : String) (expirationDays : Int) (tags : String) (forceNew : Bool) :
    SetResp × List MemRow :=
  let keyN := normalizeKey key
  if keyN = "" ∨ value = none then
    (SetResp.missing keyN "key_or_value_missing", db)
  else
    let valueN := normalizeValue (value.getD "")
    let tagsRaw := memSetTagsRaw key tags
    let tagsSearch := memSetTagsSearch key tags
    let keyExists := memoryKeyExists db keyN
    let dupOptions := memSetDupOptions db key tags
    if dupOptions ≠ [] ∧ keyExists = false ∧ forceNew = false then
      (SetResp.dupErr keyN tagsRaw dupOptions, db)
    else
      let forced := if dupOptions ≠ [] ∧ keyExists = false then forceNew else false
      let db2 := upsertRow db keyN valueN (scopeNormOf scope) tagsRaw tagsSearch now
        (memSetExpires now expirationDays)
      (SetResp.okResp keyN valueN (scopeNormOf scope) tagsRaw
        (memSetExpires now expirationDays) keyExists forced
        (if forced then dupOptions else []), db2)

/-- Response of memory_get: the validation error, the expired payload, the
not_found/ambiguous lookup failure with suggestions, or the ok payload.
The expired response carries the stored payload together with the
expired flag and the expired error code of the result dictionary. -/
inductive GetResp
  | keyMissing (key : String)
  | expiredResp (payload : MemRow)
  | lookupFail (key : String) (code : String) (matchList : List ResultEntry)
  | okResp (payload : MemRow)

deriving instance DecidableEq, Repr for GetResp

/-- memory_get from scripts/memory.py: normalize, fetch with expiry, and on
a miss run the tag-similarity suggestion search over the original
unnormalized lookup text. -/
def memoryGet (db : List MemRow) (now : Nat) (key : String) : GetResp × List MemRow :=
  let keyN := normalizeKey key
  if keyN = "" then (GetResp.keyMissing key, db)
  else
    match memoryGetDbSync db keyN now with
    | (DbGet.expiredRow row, db2) => (GetResp.expiredResp row, db2)
    | (DbGet.notFound, db2) =>
        let matchList := findTagMatchesForQuery db2 (if key ≠ "" then key else keyN) [keyN]
        (GetResp.lookupFail keyN (if matchList.isEmpty then "not_found" else "ambiguous")
          matchList, db2)
    | (DbGet.okRow row, db2) => (GetResp.okResp row, db2)

/-- Response of memory_forget. -/
inductive ForgetResp
  | keyMissing (key : String)
  | lookupFail (key : String) (code : String) (matchList : List ResultEntry)
  | okResp (key : String) (deleted : Nat)

deriving instance DecidableEq, Repr for ForgetResp

/-- memory_forget from scripts/memory.py: delete by normalized key; when
nothing was removed run the same suggestion search as memory_get. -/
def memoryForget (db : List MemRow) (key : String) : ForgetResp × List MemRow :=
  let keyN := normalizeKey key
  if keyN = "" then (ForgetResp.keyMissing key, db)
  else
    let res := memoryForgetDbSync db keyN
    if res.1 = 0 then
      let matchList := findTagMatchesForQuery res.2 (if key ≠ "" then key else keyN) [keyN]
      (ForgetResp.lookupFail keyN (if matchList.isEmpty then "not_found" else "ambiguous")
        matchList, res.2)
    else (ForgetResp.okResp keyN res.1, res.2)

/-! Concurrency model for memory_set.  The service body awaits three
storage operations in sequence: the key-existence check, the duplicate-tag
candidate search, and the write; each awaited call is one atomic step and
the event loop may interleave other tasks between them.  The body itself
acquires no per-key lock (the _IndexLockContext registry of
scripts/common_utilities.py is used only by the cache services there), so
steps of two concurrent memory_set tasks can interleave freely. -/

/-- The arguments of one memory_set invocation (validation inputs already
well-formed: a present value and a Bool force_new). -/
structure SetArgs where
  key : String
  value : String
  scope : String
  expirationDays : Int
  tags : String
  forceNew : Bool

deriving instance DecidableEq, Repr for SetArgs

/-- Progress of one memory_set task through its awaited storage calls. -/
inductive SetPhase
  | ready
  | checkedExists (keyExists : Bool)
  | checkedDup (keyExists : Bool) (dupOptions : List ResultEntry)
  | finished (resp : SetResp)

deriving instance DecidableEq, Repr for SetPhase

/-- One memory_set task: its arguments and its current phase. -/
structure SetTask where
  args : SetArgs
  phase : SetPhase

deriving instance DecidableEq, Repr for SetTask

/-- One atomic step of a memory_set task against the shared store: the
existence check, then the duplicate candidate search, then the decision
plus write (or duplicate_tags failure).  A finished task does nothing. -/
def stepSetTask (db : List MemRow) (now : Nat) (t : SetTask) : SetTask × List MemRow :=
  let a := t.args
  let keyN := normalizeKey a.key
  match t.phase with
  | SetPhase.ready =>
      if keyN = "" then
        ({ t with phase := SetPhase.finished (SetResp.missing keyN "key_or_value_missing") }, db)
      else ({ t with phase := SetPhase.checkedExists (memoryKeyExists db keyN) }, db)
  | SetPhase.checkedExists ke =>
      let ts := memSetTagsSearch a.key a.tags
      let cands :=
        if ke = false ∧ ts ≠ "" then
          searchTagCandidates db ts [keyN] (some CANDIDATE_CHECK_LIMIT)
        else []
      ({ t with phase :=
          SetPhase.checkedDup ke (cands.map (fun p => condenseCandidate p.1 p.2)) }, db)
  | SetPhase.checkedDup ke opts =>
      if opts ≠ [] ∧ ke = false ∧ a.forceNew = false then
        ({ t with phase :=
            SetPhase.finished (SetResp.dupErr keyN (memSetTagsRaw a.key a.tags) opts) }, db)
      else
        let forced := if opts ≠ [] ∧ ke = false then a.forceNew else false
        let db2 := upsertRow db keyN (normalizeValue a.value) (scopeNormOf a.scope)
          (memSetTagsRaw a.key a.tags) (memSetTagsSearch a.key a.tags) now
          (memSetExpires now a.expirationDays)
        ({ t with phase :=
            SetPhase.finished (SetResp.okResp keyN (normalizeValue a.value)
              (scopeNormOf a.scope) (memSetTagsRaw a.key a.tags)
              (memSetExpires now a.expirationDays) ke forced
              (if forced then opts else [])) }, db2)
  | SetPhase.finished _ => (t, db)

/-- Run two concurrent memory_set tasks under a schedule: true steps the
first task, false the second. -/
def runSched (now : Nat) : List Bool → List MemRow × SetTask × SetTask →
    List MemRow × SetTask × SetTask
  | [], s => s
  | pick :: rest, (db, ta, tb) =>
      if pick then
        let r := stepSetTask db now ta
        runSched now rest (r.2, r.1, tb)
      else
        let r := stepSetTask db now tb
        runSched now rest (r.2, ta, r.1)

/-- Did the task finish with an ok response. -/
def isOkFinished (t : SetTask) : Bool :=
  match t.phase with
  | SetPhase.finished (SetResp.okResp _ _ _ _ _ _ _ _) => true
  | _ => false

/-- Did the task finish with a duplicate_tags error carrying at least one
candidate. -/
def isDupErrFinished (t : SetTask) : Bool :=
  match t.phase with
  | SetPhase.finished (SetResp.dupErr _ _ opts) => !opts.isEmpty
  | _ => false

/-- Both concurrent set calls returned ok. -/
def bothSucceeded (s : List MemRow × SetTask × SetTask) : Bool :=
  isOkFinished s.2.1 && isOkFinished s.2.2

/-! Specification-side definitions, written from the words of the claims
they are compared against (refinement targets, not code translations). -/

/-- The match score as claim C2 states it: the Jaccard score, which is 0
when either set is empty or the intersection is empty, returned alone when
no rank is available and blended as 0.5 * (1 / (1 + max r 0)) + 0.5 *
jaccard when a rank r is available. -/
def claimMatchScore (q c : List String) (r : Option Rat) : Rat :=
  let jac : Rat :=
    if q.isEmpty ∨ c.isEmpty ∨ (tokenInter q c).isEmpty then 0
    else ((tokenInter q c).length : Rat) / ((tokenUnion q c).length : Rat)
  match r with
  | some rank => (1/2) * (1 / (1 + max rank 0)) + (1/2) * jac
  | none => jac

/-- The amended match score: as claim C2, except that when both token sets
are nonempty and their intersection is empty the score is 0 even when a
rank is available (the early return of _calculate_match_score). -/
def claimMatchScoreAmended (q c : List String) (r : Option Rat) : Rat :=
  if !q.isEmpty ∧ !c.isEmpty ∧ (tokenInter q c).isEmpty then 0
  else
    let jac : Rat := if q.isEmpty ∨ c.isEmpty then 0
      else ((tokenInter q c).length : Rat) / ((tokenUnion q c).length : Rat)
    match r with
    | some rank => (1/2) * (1 / (1 + max rank 0)) + (1/2) * jac
    | none => jac

/-- C2 counterexample: with both token sets nonempty but disjoint and a
rank of 0 available, the code returns 0 while the claimed formula returns
0.5 * (1 / (1 + 0)) + 0.5 * 0 = 1/2, so the claimed equation fails. -/
theorem C2_match_score_counterexample :
    calculateMatchScore ["a"] ["b"] (some 0) = 0 ∧
    claimMatchScore ["a"] ["b"] (some 0) = 1/2 ∧
    calculateMatchScore ["a"] ["b"] (some 0) ≠ claimMatchScore ["a"] ["b"] (some 0) := by
  have h1 : calculateMatchScore ["a"] ["b"] (some 0) = 0 := by decide
  have h2 : claimMatchScore ["a"] ["b"] (some 0) = 1/2 := by
    have hinter : tokenInter ["a"] ["b"] = [] := by decide
    simp [claimMatchScore, hinter]
  exact ⟨h1, h2, by rw [h1, h2]; norm_num⟩

/-- BM25_WEIGHT is one half. -/
theorem BM25_WEIGHT_eq : BM25_WEIGHT = 1/2 := by
  rw [BM25_WEIGHT, Rat.mkRat_eq_divInt]
  norm_num [Rat.divInt_eq_div]

/-- C2 (amended): the match score equals the Jaccard blend exactly as the
claim states it, except that when both token sets are nonempty with empty
intersection the score is 0 regardless of the rank. -/
theorem C2_match_score_amended (q c : List String) (r : Option Rat) :
    calculateMatchScore q c r = claimMatchScoreAmended q c r := by
  unfold calculateMatchScore claimMatchScoreAmended
  by_cases h1 : (q.isEmpty : Prop) ∨ (c.isEmpty : Prop)
  · have hn : ¬ ((!q.isEmpty : Prop) ∧ (!c.isEmpty : Prop) ∧ ((tokenInter q c).isEmpty : Prop)) := by
      rcases h1 with h | h
      · exact fun hcon => by simp [h] at hcon
      · exact fun hcon => by simp [h] at hcon
    rw [if_pos h1, if_neg hn]
    simp only [if_pos h1]
    cases r with
    | none => rfl
    | some rank =>
        simp only [blendScore_eq, BM25_WEIGHT_eq]
        ring
  · push_neg at h1
    obtain ⟨hq, hc⟩ := h1
    have hor : ¬ ((q.isEmpty : Prop) ∨ (c.isEmpty : Prop)) := by
      intro h
      rcases h with h | h
      · exact hq h
      · exact hc h
    rw [if_neg hor]
    by_cases h2 : ((tokenInter q c).isEmpty : Prop)
    · rw [if_pos h2, if_pos ⟨by simpa using hq, by simpa using hc, h2⟩]
    · rw [if_neg h2, if_neg (fun h => h2 h.2.2)]
      have hql : q ≠ [] := fun he => hq (by simp [he])
      have hu : ¬ ((tokenUnion q c).length = 0) := by
        unfold tokenUnion
        simp only [List.length_append]
        intro hzero
        exact hql (List.length_eq_zero.mp (by omega))
      simp only [if_neg hu, if_neg hor]
      cases r with
      | none => simp only [blendScore_eq, qDiv_eq]
      | some rank =>
          simp only [blendScore_eq, BM25_WEIGHT_eq, qDiv_eq]
          ring


/-! Claim C4: the query planner. -/

/-- The variant list exactly as claim C4 words it: an exact-phrase variant
only with 2+ tokens; a NEAR variant with window 2*tokenCount - 1 clamped to
[3, 5], skipped for a single token; a conjunctive AND variant or the single
token itself; a disjunctive OR variant with prefix wildcards; the
normalized query string; the trimmed raw query string; duplicates removed
preserving first-seen order. -/
def claimFtsQueryList (rawQuery : String) : List String :=
  let nq := normalizeSearchText rawQuery
  let toks := if nq = "" then [] else pySplit nq
  let n := toks.length
  let phraseV := if 2 ≤ n then ["\"" ++ String.intercalate " " toks ++ "\""] else []
  let nearV := if 2 ≤ n then
      ["NEAR(" ++ String.intercalate " " toks ++ ", " ++
        toString (min 5 (max 3 (2 * n - 1))) ++ ")"]
    else []
  let andV := if n = 0 then []
    else if n = 1 then toks else [String.intercalate " AND " toks]
  let orV := if n = 0 then []
    else [String.intercalate " OR " (toks.map (fun t => t ++ "*"))]
  let normV := if nq = "" then [] else [nq]
  let rq := String.mk (dropEdge isPySpace rawQuery.toList)
  let rawV := if rq = "" then [] else [rq]
  dedupKeepFirst (phraseV ++ nearV ++ andV ++ orV ++ normV ++ rawV)

/-- For 2 or more tokens the computed NEAR distance is 2n - 1 clamped to
[3, 5]. -/
theorem nearDistance_eq_clamp (n : Nat) (h : 2 ≤ n) :
    nearDistanceForTokens n = min 5 (max 3 (2 * n - 1)) := by
  unfold nearDistanceForTokens NEAR_DISTANCE
  rw [if_neg (by omega)]
  simp only []
  split
  · omega
  · split
    · omega
    · omega

/-- C4: the query planner produces, in order, the phrase variant (2+
tokens), the NEAR variant with window 2*tokenCount - 1 clamped to [3, 5]
(skipped for one token), the AND variant or single token, the OR variant
with prefix wildcards, the normalized query and the trimmed raw query,
with duplicates removed preserving first-seen order. -/
theorem C4_build_fts_queries (rawQuery : String) :
    buildFtsQueries rawQuery = claimFtsQueryList rawQuery := by
  have hsingle : ∀ sep x : String, String.intercalate sep [x] = x := fun _ _ => rfl
  unfold buildFtsQueries claimFtsQueryList ftsVariantList
  set nq := normalizeSearchText rawQuery with hnq
  set rq := String.mk (dropEdge isPySpace rawQuery.toList) with hrq
  by_cases h0 : nq = ""
  · simp [h0, renderFts, apply_ite (List.map renderFts)]
  · simp only [if_neg h0]
    generalize pySplit nq = toks
    rcases toks with _ | ⟨t1, _ | ⟨t2, rest⟩⟩
    · simp [renderFts, apply_ite (List.map renderFts)]
    · simp [renderFts, apply_ite (List.map renderFts), hsingle]
    · have hlen : 2 ≤ (t1 :: t2 :: rest).length := by
        simp only [List.length_cons]
        omega
      rw [nearDistance_eq_clamp _ hlen]
      simp [renderFts, apply_ite (List.map renderFts), hlen]

/-! Claim C5: zero scores and result filtering. -/

/-- Every triple kept by the candidate deduplication loop has a strictly
positive score. -/
theorem dedupCands_pos (excl : List String) (l : List ResultEntry) :
    ∀ (seen : List String) (p : String × ResultEntry × Rat),
      p ∈ dedupCands excl l seen → 0 < p.2.2 := by
  induction l with
  | nil => intro seen p h; simp [dedupCands] at h
  | cons item rest ih =>
      intro seen p h
      simp only [dedupCands] at h
      by_cases h1 : (decide (normalizeKey item.key = "") ||
          excl.contains (normalizeKey item.key) ||
          seen.contains (normalizeKey item.key)) = true
      · rw [if_pos h1] at h
        exact ih _ p h
      · rw [if_neg h1] at h
        by_cases h2 : item.match_score ≤ 0
        · rw [if_pos h2] at h
          exact ih _ p h
        · rw [if_neg h2] at h
          rcases List.mem_cons.mp h with hh | hh
          · rw [hh]
            exact lt_of_not_le h2
          · exact ih _ p hh

/-- Membership through the stable candidate insertion. -/
theorem insertCandDesc_mem (x p : String × ResultEntry × Rat) (l : List (String × ResultEntry × Rat)) :
    p ∈ insertCandDesc x l → p = x ∨ p ∈ l := by
  induction l with
  | nil => intro h; simp [insertCandDesc] at h; exact Or.inl h
  | cons y rest ih =>
      intro h
      simp only [insertCandDesc] at h
      split at h
      · rcases List.mem_cons.mp h with hh | hh
        · exact Or.inl hh
        · exact Or.inr hh
      · rcases List.mem_cons.mp h with hh | hh
        · exact Or.inr (by rw [hh]; exact List.mem_cons_self y rest)
        · rcases ih hh with h3 | h3
          · exact Or.inl h3
          · exact Or.inr (List.mem_cons_of_mem y h3)

/-- Membership through the candidate sort. -/
theorem sortCandDesc_mem (l : List (String × ResultEntry × Rat))
    (p : String × ResultEntry × Rat) : p ∈ sortCandDesc l → p ∈ l := by
  induction l with
  | nil => intro h; simp [sortCandDesc] at h
  | cons x rest ih =>
      intro h
      rcases insertCandDesc_mem x p (sortCandDesc rest) h with hh | hh
      · rw [hh]; exact List.mem_cons_self x rest
      · exact List.mem_cons_of_mem x (ih hh)

/-- Every candidate returned by _search_tag_candidates has a strictly
positive score. -/
theorem searchTagCandidates_pos (db : List MemRow) (source : String)
    (excludeKeys : List String) (limitArg : Option Nat) (p : ResultEntry × Rat)
    (hp : p ∈ searchTagCandidates db source excludeKeys limitArg) : 0 < p.2 := by
  simp only [searchTagCandidates] at hp
  split at hp
  · simp at hp
  · split at hp
    · simp at hp
    · split at hp
      · simp at hp
      · split at hp
        · simp at hp
        · have h1 := List.take_subset _ _ hp
          rcases List.mem_map.mp h1 with ⟨trip, htrip, hmap⟩
          have h2 := sortCandDesc_mem _ _ htrip
          have h3 := dedupCands_pos _ _ _ _ h2
          rw [← hmap]
          exact h3

/-- Row used by the C5 counterexample: its value matches the LIKE
fallback for the query but its tags share no token with it. -/
def c5Row : MemRow :=
  { key := "slot1", value := "xcolumn b", scope := "user", tags := "parking",
    tags_search := "parking", created_at := 0, last_used_at := 0, expires_at := none }

/-- C5 counterexample: a search can return an entry whose computed match
score is exactly 0 — the query col reaches the row through the LIKE
fallback on its value, no tag token overlaps, and the zero-scored entry is
still in the returned results. -/
theorem C5_search_includes_zero_score :
    (memorySearchDbSync [c5Row] "col" 5).map (fun e => e.match_score) = [0] := by
  decide

/-- Store used by the C5 witness. -/
def c5WitnessDb : List MemRow :=
  [{ key := "blue_car", value := "v1", scope := "user", tags := "blue car",
     tags_search := "blue car", created_at := 0, last_used_at := 0, expires_at := none }]

/-- The candidate entry computed for the C5 witness. -/
def c5Entry : ResultEntry :=
  { key := "blue_car", value := "v1", scope := "user", tags := "blue car",
    created_at := 0, last_used_at := 0, expires_at := none, match_score := 1 }

/-- C5 (amended): tag-similarity lookups (duplicate detection and
not-found suggestions) exclude entries with score exactly 0 — every
returned candidate scores strictly above 0 — but the search results of
_memory_search_db_sync are not filtered this way and may contain
zero-score entries. -/
theorem C5_tag_lookups_exclude_zero (db : List MemRow) (source : String)
    (excludeKeys : List String) (limitArg : Option Nat) (p : ResultEntry × Rat)
    (e : ResultEntry)
    (hp : p ∈ searchTagCandidates db source excludeKeys limitArg)
    (he : e ∈ findTagMatchesForQuery db source excludeKeys) :
    0 < p.2 ∧ 0 < e.match_score := by
  refine ⟨searchTagCandidates_pos db source excludeKeys limitArg p hp, ?_⟩
  unfold findTagMatchesForQuery at he
  rcases List.mem_map.mp he with ⟨q, hq, hmap⟩
  have h3 := searchTagCandidates_pos db source excludeKeys none q hq
  rw [← hmap]
  unfold condenseCandidate
  simpa using h3

/-- C5 witness: a concrete candidate with positive score returned by both
tag-lookup call sites. -/
theorem C5_witness :
    ((c5Entry, (1 : Rat)) ∈ searchTagCandidates c5WitnessDb "blue car" [] none ∧
      c5Entry ∈ findTagMatchesForQuery c5WitnessDb "blue car" []) ∧
    (0 < ((c5Entry, (1 : Rat)) : ResultEntry × Rat).2 ∧ 0 < c5Entry.match_score) :=
  ⟨⟨by decide, by decide⟩,
    C5_tag_lookups_exclude_zero c5WitnessDb "blue car" [] none (c5Entry, 1) c5Entry
      (by decide) (by decide)⟩


/-! Claim C6: memory_get on a missing key. -/

/-- C6: when the normalized key has no stored record, memory_get runs the
tag-similarity suggestion search over the original unnormalized lookup
text and returns the lookup failure with error ambiguous and a non-empty
matches list exactly when some suggestion scores above 0, and not_found
with an empty matches list otherwise; the store is left unchanged. -/
theorem C6_get_not_found (db : List MemRow) (now : Nat) (key : String)
    (hkn : normalizeKey key ≠ "")
    (hnf : (fetchWithExpiry db (normalizeKey key) now).2 = none) :
    memoryGet db now key =
      (GetResp.lookupFail (normalizeKey key)
        (if (findTagMatchesForQuery db key [normalizeKey key]).isEmpty then "not_found"
          else "ambiguous")
        (findTagMatchesForQuery db key [normalizeKey key]), db) ∧
    (findTagMatchesForQuery db key [normalizeKey key] ≠ [] ↔
      ∃ p ∈ searchTagCandidates db key [normalizeKey key] none, 0 < p.2) := by
  have hk : key ≠ "" := by
    intro he
    apply hkn
    rw [he]
    rfl
  rcases hfe : fetchWithExpiry db (normalizeKey key) now with ⟨b, opt⟩
  rw [hfe] at hnf
  have hopt : opt = none := hnf
  subst hopt
  constructor
  · cases b <;>
      simp only [memoryGet, memoryGetDbSync, hfe, if_neg hkn, if_pos hk]
  · constructor
    · intro hne
      rcases hc : searchTagCandidates db key [normalizeKey key] none with _ | ⟨p0, rest⟩
      · exfalso
        apply hne
        unfold findTagMatchesForQuery
        rw [hc]
        rfl
      · have hmem : p0 ∈ p0 :: rest := List.mem_cons_self _ _
        have hmem2 : p0 ∈ searchTagCandidates db key [normalizeKey key] none := by
          rw [hc]
          exact hmem
        exact ⟨p0, hmem, searchTagCandidates_pos _ _ _ _ _ hmem2⟩
    · rintro ⟨p, hp, hpos⟩ hemp
      unfold findTagMatchesForQuery at hemp
      rw [List.map_eq_nil_iff.mp hemp] at hp
      simp at hp

/-- Store used by the C6 witness. -/
def c6Db : List MemRow :=
  [{ key := "blue_car_info", value := "v", scope := "user", tags := "blue car info",
     tags_search := "blue car info", created_at := 0, last_used_at := 0,
     expires_at := none }]

/-- C6 witness: looking up a missing key whose text overlaps the stored
tags yields the ambiguous outcome of the theorem at a concrete store. -/
theorem C6_witness :
    (normalizeKey "blue car stuff" ≠ "" ∧
      (fetchWithExpiry c6Db (normalizeKey "blue car stuff") 100).2 = none) ∧
    (memoryGet c6Db 100 "blue car stuff" =
      (GetResp.lookupFail (normalizeKey "blue car stuff")
        (if (findTagMatchesForQuery c6Db "blue car stuff"
              [normalizeKey "blue car stuff"]).isEmpty then "not_found"
          else "ambiguous")
        (findTagMatchesForQuery c6Db "blue car stuff"
          [normalizeKey "blue car stuff"]), c6Db) ∧
    (findTagMatchesForQuery c6Db "blue car stuff"
        [normalizeKey "blue car stuff"] ≠ [] ↔
      ∃ p ∈ searchTagCandidates c6Db "blue car stuff"
          [normalizeKey "blue car stuff"] none, 0 < p.2)) :=
  ⟨⟨by decide, by decide⟩,
    C6_get_not_found c6Db 100 "blue car stuff" (by decide) (by decide)⟩

/-! Claim C3: expired records are returned, not deleted. -/

/-- C3: a memory_get on a record whose expiry lies in the past returns the
expired response carrying the stored row (its original value included) and
leaves the store unchanged; the row disappears only once the explicit
purge operation runs with a cutoff past the expiry. -/
theorem C3_expired_get_keeps_row (db : List MemRow) (now : Nat) (key : String)
    (r : MemRow) (t : Nat)
    (hkn : normalizeKey key ≠ "")
    (hrow : db.find? (fun x => x.key == normalizeKey key) = some r)
    (he : r.expires_at = some t) (ht : t < now) :
    memoryGet db now key = (GetResp.expiredResp r, db) ∧
    (∀ now2 g : Nat, t < now2 - g → r ∉ (memoryPurgeExpiredDbSync db now2 g).2) := by
  have hfe : fetchWithExpiry db (normalizeKey key) now = (true, some r) := by
    simp [fetchWithExpiry, hrow, he, ht]
  constructor
  · simp only [memoryGet, memoryGetDbSync, hfe, if_neg hkn]
  · intro now2 g hcut hmem
    simp only [memoryPurgeExpiredDbSync] at hmem
    rcases List.mem_filter.mp hmem with ⟨_, hcond⟩
    rw [he] at hcond
    simp [hcut] at hcond

/-- Store used by the C3 witness. -/
def c3Db : List MemRow :=
  [{ key := "k1", value := "v1", scope := "user", tags := "k1",
     tags_search := "k1", created_at := 0, last_used_at := 5,
     expires_at := some 50 }]

/-- The expired row of the C3 witness store. -/
def c3Row : MemRow :=
  { key := "k1", value := "v1", scope := "user", tags := "k1",
    tags_search := "k1", created_at := 0, last_used_at := 5,
    expires_at := some 50 }

/-- C3 witness: reading the backdated record at a concrete store. -/
theorem C3_witness :
    (normalizeKey "k1" ≠ "" ∧
      c3Db.find? (fun x => x.key == normalizeKey "k1") = some c3Row ∧
      c3Row.expires_at = some 50 ∧ 50 < 100) ∧
    (memoryGet c3Db 100 "k1" = (GetResp.expiredResp c3Row, c3Db) ∧
      (∀ now2 g : Nat, 50 < now2 - g → c3Row ∉ (memoryPurgeExpiredDbSync c3Db now2 g).2)) :=
  ⟨⟨by decide, by decide, by decide, by decide⟩,
    C3_expired_get_keeps_row c3Db 100 "k1" c3Row 50 (by decide) (by decide)
      (by decide) (by decide)⟩

/-! Claim C10: the frame of an expired read. -/

/-- C10: an expired read returns before the last_used_at refresh, so the
store is returned entirely unchanged; only a read that reports ok rewrites
the row, and then only its last_used_at field. -/
theorem C10_expired_read_frame (db : List MemRow) (keyNorm : String) (now : Nat)
    (r : MemRow)
    (hexp : fetchWithExpiry db keyNorm now = (true, some r)) :
    memoryGetDbSync db keyNorm now = (DbGet.expiredRow r, db) ∧
    (∀ (db2 : List MemRow) (r2 : MemRow),
      fetchWithExpiry db2 keyNorm now = (false, some r2) →
      memoryGetDbSync db2 keyNorm now =
        (DbGet.okRow { r2 with last_used_at := now },
         db2.map (fun x => if x.key == keyNorm then { x with last_used_at := now }
          else x))) := by
  constructor
  · simp only [memoryGetDbSync, hexp]
  · intro db2 r2 h2
    simp only [memoryGetDbSync, h2]

/-- Row used by the C10 witness. -/
def c10Row : MemRow :=
  { key := "k2", value := "v", scope := "user", tags := "k2",
    tags_search := "k2", created_at := 0, last_used_at := 7,
    expires_at := some 20 }

/-- C10 witness: the expired read of the C10 store changes nothing. -/
theorem C10_witness :
    (fetchWithExpiry [c10Row] "k2" 90 = (true, some c10Row)) ∧
    (memoryGetDbSync [c10Row] "k2" 90 = (DbGet.expiredRow c10Row, [c10Row]) ∧
      (∀ (db2 : List MemRow) (r2 : MemRow),
        fetchWithExpiry db2 "k2" 90 = (false, some r2) →
        memoryGetDbSync db2 "k2" 90 =
          (DbGet.okRow { r2 with last_used_at := 90 },
           db2.map (fun x => if x.key == "k2" then { x with last_used_at := 90 }
            else x)))) :=
  ⟨by decide,
    C10_expired_read_frame [c10Row] "k2" 90 c10Row (by decide)⟩


/-! Claim C1: duplicate-tag rejection and the force_new override. -/

/-- C1: for a memory_set whose normalized key does not yet exist, when the
tag-similarity search over the normalized tags returns at least one
candidate (every returned candidate scores above 0, see
searchTagCandidates_pos) and force_new is false, the call fails with
duplicate_tags carrying the candidate list and writes nothing; the same
call with force_new true performs the upsert, returns ok and reports
force_new_applied = true. -/
theorem C1_duplicate_tags_guard (db : List MemRow) (now : Nat)
    (key v scope tags : String) (expD : Int)
    (hkn : normalizeKey key ≠ "")
    (hc : memSetDupCands db key tags ≠ []) :
    memorySet db now key (some v) scope expD tags false =
      (SetResp.dupErr (normalizeKey key) (memSetTagsRaw key tags)
        (memSetDupOptions db key tags), db) ∧
    memorySet db now key (some v) scope expD tags true =
      (SetResp.okResp (normalizeKey key) (normalizeValue v) (scopeNormOf scope)
        (memSetTagsRaw key tags) (memSetExpires now expD) false true
        (memSetDupOptions db key tags),
       upsertRow db (normalizeKey key) (normalizeValue v) (scopeNormOf scope)
         (memSetTagsRaw key tags) (memSetTagsSearch key tags) now
         (memSetExpires now expD)) := by
  have hke : memoryKeyExists db (normalizeKey key) = false := by
    by_contra hne
    apply hc
    unfold memSetDupCands
    have hniet : ¬ (memoryKeyExists db (normalizeKey key) = false ∧
        memSetTagsSearch key tags ≠ "") := fun hcon => hne hcon.1
    rw [if_neg hniet]
  have hopts : memSetDupOptions db key tags ≠ [] := by
    unfold memSetDupOptions
    intro hemp
    exact hc (List.map_eq_nil_iff.mp hemp)
  have hval : ¬ (normalizeKey key = "" ∨ (some v : Option String) = none) := by
    rintro (h | h)
    · exact hkn h
    · exact Option.some_ne_none v h
  constructor
  · simp only [memorySet]
    rw [if_neg hval, if_pos ⟨hopts, hke, trivial⟩]
  · simp only [memorySet]
    rw [if_neg hval, if_neg (fun hcon => absurd hcon.2.2 (by simp)),
      if_pos ⟨hopts, hke⟩]
    rw [hke]
    simp

/-- Store used by the C1 witness: one record tagged car parking. -/
def c1Db : List MemRow :=
  [{ key := "car_parking", value := "Column B2E9", scope := "user",
     tags := "car parking", tags_search := "car parking", created_at := 10,
     last_used_at := 10, expires_at := none }]

/-- C1 witness: creating a second key with fully overlapping tags at a
concrete store. -/
theorem C1_witness :
    (normalizeKey "bike_parking" ≠ "" ∧ memSetDupCands c1Db "bike_parking" "car parking" ≠ []) ∧
    (memorySet c1Db 100 "bike_parking" (some "Row 7") "user" 30 "car parking" false =
      (SetResp.dupErr (normalizeKey "bike_parking")
        (memSetTagsRaw "bike_parking" "car parking")
        (memSetDupOptions c1Db "bike_parking" "car parking"), c1Db) ∧
    memorySet c1Db 100 "bike_parking" (some "Row 7") "user" 30 "car parking" true =
      (SetResp.okResp (normalizeKey "bike_parking") (normalizeValue "Row 7")
        (scopeNormOf "user") (memSetTagsRaw "bike_parking" "car parking")
        (memSetExpires 100 30) false true
        (memSetDupOptions c1Db "bike_parking" "car parking"),
       upsertRow c1Db (normalizeKey "bike_parking") (normalizeValue "Row 7")
         (scopeNormOf "user") (memSetTagsRaw "bike_parking" "car parking")
         (memSetTagsSearch "bike_parking" "car parking") 100
         (memSetExpires 100 30))) :=
  ⟨⟨by decide, by decide⟩,
    C1_duplicate_tags_guard c1Db 100 "bike_parking" "Row 7" "user" "car parking" 30
      (by decide) (by decide)⟩

/-! Claim C8: validation of missing inputs. -/

/-- C8 counterexample: a memory_set whose value is the empty string is not
rejected — the operation writes the record and returns ok, because the code
only tests value is None, so the claim that an empty value is rejected
before any storage access fails. -/
theorem C8_empty_value_accepted :
    (memorySet [] 0 "note" (some "") "user" 0 "" false).1 =
      SetResp.okResp "note" "" "user" "note" none false false [] ∧
    (memorySet [] 0 "note" (some "") "user" 0 "" false).2 =
      [{ key := "note", value := "", scope := "user", tags := "note",
         tags_search := "note", created_at := 0, last_used_at := 0,
         expires_at := none }] := by
  exact ⟨by decide, by decide⟩

/-- C8 (amended): a memory_set whose key normalizes to empty or whose
value is missing (None) returns key_or_value_missing with the store
untouched, and memory_get and memory_forget on a key that normalizes to
empty return key_missing with the store untouched; an empty-string value,
however, is accepted and stored. -/
theorem C8_validation_before_storage (db : List MemRow) (now : Nat) (key : String)
    (v : Option String) (scope : String) (expD : Int) (tags : String)
    (forceNew : Bool)
    (h : normalizeKey key = "" ∨ v = none) :
    memorySet db now key v scope expD tags forceNew =
      (SetResp.missing (normalizeKey key) "key_or_value_missing", db) ∧
    (∀ k2, normalizeKey k2 = "" → memoryGet db now k2 = (GetResp.keyMissing k2, db)) ∧
    (∀ k2, normalizeKey k2 = "" → memoryForget db k2 = (ForgetResp.keyMissing k2, db)) := by
  refine ⟨?_, ?_, ?_⟩
  · simp only [memorySet]
    rw [if_pos h]
  · intro k2 h2
    simp only [memoryGet]
    rw [if_pos h2]
  · intro k2 h2
    simp only [memoryForget]
    rw [if_pos h2]

/-- C8 witness: a missing value at a concrete store. -/
theorem C8_witness :
    (normalizeKey "note" = "" ∨ (none : Option String) = none) ∧
    (memorySet [] 0 "note" (none : Option String) "user" 0 "" false =
      (SetResp.missing (normalizeKey "note") "key_or_value_missing", []) ∧
    (∀ k2, normalizeKey k2 = "" → memoryGet [] 0 k2 = (GetResp.keyMissing k2, [])) ∧
    (∀ k2, normalizeKey k2 = "" → memoryForget [] k2 = (ForgetResp.keyMissing k2, []))) :=
  ⟨Or.inr rfl,
    C8_validation_before_storage [] 0 "note" none "user" 0 "" false (Or.inr rfl)⟩

/-! Claim C7: concurrency of memory_set. -/

/-- Arguments of the first concurrent task of the C7 scenario: a
brand-new key, tags blue car, no force_new. -/
def c7ArgsA : SetArgs :=
  { key := "blue_car_home", value := "spot 1", scope := "user",
    expirationDays := 0, tags := "blue car", forceNew := false }

/-- Arguments of the second concurrent task of the C7 scenario: a
different brand-new key with the same tags. -/
def c7ArgsB : SetArgs :=
  { key := "blue_car_work", value := "spot 2", scope := "user",
    expirationDays := 0, tags := "blue car", forceNew := false }

/-- First concurrent task of the C7 scenario. -/
def c7TaskA : SetTask := { args := c7ArgsA, phase := SetPhase.ready }

/-- Second concurrent task of the C7 scenario. -/
def c7TaskB : SetTask := { args := c7ArgsB, phase := SetPhase.ready }

/-- C7 counterexample: the claimed mutual exclusion fails — it is not the
case that every interleaving of the two concurrent set calls on brand-new
keys with overlapping tags stops one of them: under the schedule that runs
both duplicate-tag checks before either write, both calls return ok,
because the memory_set path acquires no per-key lock around its awaited
storage steps. -/
theorem C7_counterexample :
    ¬ (∀ sched : List Bool,
        bothSucceeded (runSched 0 sched ([], c7TaskA, c7TaskB)) = false) :=
  fun h => absurd (h [true, false, true, false, true, false]) (by decide)

/-- C7 (amended): memory_set performs its duplicate-tag check and write
without acquiring any per-key lock (the per-key registry of
common_utilities.py is used only by the cache services), so the
serialization the claim promises does not hold for the memory store: run
sequentially, the second set call is stopped with duplicate_tags, but the
interleaving that runs both checks before either write lets both calls
succeed. -/
theorem C7_set_not_serialized :
    bothSucceeded (runSched 0 [true, false, true, false, true, false]
      ([], c7TaskA, c7TaskB)) = true ∧
    isOkFinished (runSched 0 [true, true, true, false, false, false]
      ([], c7TaskA, c7TaskB)).2.1 = true ∧
    isDupErrFinished (runSched 0 [true, true, true, false, false, false]
      ([], c7TaskA, c7TaskB)).2.2 = true := by
  exact ⟨by decide, by decide, by decide⟩


/-! Claim C9: idempotence of normalization.  The proofs factor through
structural invariants: after one pass the string only holds characters of
the target alphabet, no two adjacent separator characters occur, and no
separator sits at either edge; each pipeline stage is the identity on such
strings. -/

/-- No two adjacent characters both satisfy p. -/
def noDoubleRep (p : Char → Bool) : List Char → Bool
  | [] => true
  | [_] => true
  | a :: b :: rest => (!(p a && p b)) && noDoubleRep p (b :: rest)

/-- The head, if any, does not satisfy p. -/
def firstCharNot (p : Char → Bool) : List Char → Bool
  | [] => true
  | c :: _ => !(p c)

/-- The last character, if any, does not satisfy p. -/
def lastCharNot (p : Char → Bool) : List Char → Bool
  | [] => true
  | [c] => !(p c)
  | _ :: b :: rest => lastCharNot p (b :: rest)

theorem noDoubleRep_tail (p : Char → Bool) (a : Char) (l : List Char)
    (h : noDoubleRep p (a :: l) = true) : noDoubleRep p l = true := by
  cases l with
  | nil => rfl
  | cons b rest =>
      simp only [noDoubleRep, Bool.and_eq_true] at h
      exact h.2

theorem noDoubleRep_cons (p : Char → Bool) (a : Char) (l : List Char)
    (ha : p a = false) (h : noDoubleRep p l = true) :
    noDoubleRep p (a :: l) = true := by
  cases l with
  | nil => rfl
  | cons b rest => simp [noDoubleRep, ha, h]

theorem noDoubleRep_append_left (p : Char → Bool) :
    ∀ (l t : List Char), noDoubleRep p (l ++ t) = true → noDoubleRep p l = true
  | [], _, _ => rfl
  | [_], _, _ => rfl
  | a :: b :: r, t, h => by
      simp only [List.cons_append] at h
      simp only [noDoubleRep, Bool.and_eq_true] at h ⊢
      exact ⟨h.1, noDoubleRep_append_left p (b :: r) t h.2⟩

theorem noDoubleRep_append_right (p : Char → Bool) :
    ∀ (t l : List Char), noDoubleRep p (t ++ l) = true → noDoubleRep p l = true
  | [], _, h => h
  | a :: r, l, h => noDoubleRep_append_right p r l (noDoubleRep_tail p a (r ++ l) h)

theorem noDoubleRep_mono (p q : Char → Bool) (himp : ∀ c, q c = true → p c = true) :
    ∀ l, noDoubleRep p l = true → noDoubleRep q l = true
  | [], _ => rfl
  | [_], _ => rfl
  | a :: b :: r, h => by
      simp only [noDoubleRep, Bool.and_eq_true] at h ⊢
      refine ⟨?_, noDoubleRep_mono p q himp (b :: r) h.2⟩
      by_cases hqa : q a = true
      · by_cases hqb : q b = true
        · exfalso
          have h1 := h.1
          rw [himp a hqa, himp b hqb] at h1
          simp at h1
        · have hqb2 : q b = false := by simpa using hqb
          simp [hqb2]
      · have hqa2 : q a = false := by simpa using hqa
        simp [hqa2]

theorem collapseRuns_head_false (p : Char → Bool) (rep : Char) (fl : Bool)
    (b : Char) (rest : List Char) (hb : p b = false) :
    collapseRuns p rep fl (b :: rest) = b :: collapseRuns p rep false rest := by
  cases fl <;> simp [collapseRuns, hb]

theorem collapseRuns_nop (p : Char → Bool) (rep : Char) :
    ∀ (b : Bool) (l : List Char), (∀ c ∈ l, p c = false) →
      collapseRuns p rep b l = l
  | _, [], _ => rfl
  | fl, c :: rest, h => by
      have hc := h c (List.mem_cons_self _ _)
      rw [collapseRuns_head_false p rep fl c rest hc]
      rw [collapseRuns_nop p rep false rest (fun d hd => h d (List.mem_cons_of_mem _ hd))]

theorem collapseRuns_id (p : Char → Bool) (rep : Char) :
    ∀ l, noDoubleRep p l = true → (∀ c ∈ l, p c = true → c = rep) →
      collapseRuns p rep false l = l
  | [], _, _ => rfl
  | a :: rest, hnd, hrep => by
      by_cases hpa : p a = true
      · have ha := hrep a (List.mem_cons_self _ _) hpa
        rw [ha] at hpa hnd ⊢
        cases rest with
        | nil => simp [collapseRuns, hpa]
        | cons b r2 =>
            simp only [noDoubleRep, Bool.and_eq_true] at hnd
            have hpb : p b = false := by
              have h1 := hnd.1
              rw [hpa] at h1
              simpa using h1
            have hstep : collapseRuns p rep false (rep :: b :: r2) =
                (if p rep = true then rep :: collapseRuns p rep true (b :: r2)
                  else rep :: collapseRuns p rep false (b :: r2)) := rfl
            rw [hstep, if_pos hpa]
            rw [collapseRuns_head_false p rep true b r2 hpb]
            have hrec := collapseRuns_id p rep (b :: r2) hnd.2
              (fun c hc hp => hrep c (List.mem_cons_of_mem _ hc) hp)
            rw [collapseRuns_head_false p rep false b r2 hpb] at hrec
            have hr2 : collapseRuns p rep false r2 = r2 := by
              have htl := congrArg List.tail hrec
              simpa using htl
            rw [hr2]
      · have hpaf : p a = false := by simpa using hpa
        rw [collapseRuns_head_false p rep false a rest hpaf]
        rw [collapseRuns_id p rep rest (noDoubleRep_tail p a rest hnd)
          (fun c hc hp => hrep c (List.mem_cons_of_mem _ hc) hp)]

theorem collapseRuns_chars (p : Char → Bool) (rep : Char) :
    ∀ (fl : Bool) (l : List Char) (c : Char), c ∈ collapseRuns p rep fl l →
      c = rep ∨ (c ∈ l ∧ p c = false)
  | fl, [], c, h => by simp [collapseRuns] at h
  | fl, a :: rest, c, h => by
      by_cases hpa : p a = true
      · cases fl with
        | true =>
            simp only [collapseRuns, hpa, if_true] at h
            rcases collapseRuns_chars p rep true rest c h with h1 | h1
            · exact Or.inl h1
            · exact Or.inr ⟨List.mem_cons_of_mem _ h1.1, h1.2⟩
        | false =>
            simp only [collapseRuns, hpa, if_true] at h
            rcases List.mem_cons.mp h with h1 | h1
            · exact Or.inl h1
            · rcases collapseRuns_chars p rep true rest c h1 with h2 | h2
              · exact Or.inl h2
              · exact Or.inr ⟨List.mem_cons_of_mem _ h2.1, h2.2⟩
      · have hpaf : p a = false := by simpa using hpa
        rw [collapseRuns_head_false p rep fl a rest hpaf] at h
        rcases List.mem_cons.mp h with h1 | h1
        · subst h1
          exact Or.inr ⟨List.mem_cons_self _ _, hpaf⟩
        · rcases collapseRuns_chars p rep false rest c h1 with h2 | h2
          · exact Or.inl h2
          · exact Or.inr ⟨List.mem_cons_of_mem _ h2.1, h2.2⟩

theorem collapseRuns_true_head (p : Char → Bool) (rep : Char) :
    ∀ l, collapseRuns p rep true l = [] ∨
      ∃ c t, collapseRuns p rep true l = c :: t ∧ p c = false
  | [] => Or.inl rfl
  | a :: rest => by
      by_cases hpa : p a = true
      · simp only [collapseRuns, hpa, if_true]
        exact collapseRuns_true_head p rep rest
      · have hpaf : p a = false := by simpa using hpa
        rw [collapseRuns_head_false p rep true a rest hpaf]
        exact Or.inr ⟨a, collapseRuns p rep false rest, rfl, hpaf⟩

theorem collapseRuns_noDouble (p : Char → Bool) (rep : Char) :
    ∀ (fl : Bool) (l : List Char), noDoubleRep p (collapseRuns p rep fl l) = true
  | _, [] => rfl
  | fl, a :: rest => by
      by_cases hpa : p a = true
      · cases fl with
        | true =>
            simp only [collapseRuns, hpa, if_true]
            exact collapseRuns_noDouble p rep true rest
        | false =>
            simp only [collapseRuns, hpa, if_true]
            rcases collapseRuns_true_head p rep rest with h | ⟨c, t, heq, hcf⟩
            · rw [h]
              rfl
            · rw [heq]
              have h2 := collapseRuns_noDouble p rep true rest
              rw [heq] at h2
              simp [noDoubleRep, hcf, h2]
      · have hpaf : p a = false := by simpa using hpa
        rw [collapseRuns_head_false p rep fl a rest hpaf]
        exact noDoubleRep_cons p a _ hpaf (collapseRuns_noDouble p rep false rest)

theorem dropTrailing_append (p : Char → Bool) :
    ∀ l : List Char, ∃ t, l = dropTrailing p l ++ t
  | [] => ⟨[], rfl⟩
  | c :: rest => by
      rcases dropTrailing_append p rest with ⟨t, ht⟩
      by_cases hcase : ((dropTrailing p rest).isEmpty && p c) = true
      · refine ⟨c :: rest, ?_⟩
        simp only [dropTrailing]
        rw [if_pos hcase]
        rfl
      · refine ⟨t, ?_⟩
        simp only [dropTrailing]
        rw [if_neg hcase, List.cons_append, ← ht]

theorem mem_dropTrailing (p : Char → Bool) (l : List Char) (c : Char)
    (h : c ∈ dropTrailing p l) : c ∈ l := by
  rcases dropTrailing_append p l with ⟨t, ht⟩
  rw [ht]
  exact List.mem_append_left _ h

theorem dropTrailing_last (p : Char → Bool) :
    ∀ l, lastCharNot p (dropTrailing p l) = true
  | [] => rfl
  | c :: rest => by
      simp only [dropTrailing]
      by_cases hcase : ((dropTrailing p rest).isEmpty && p c) = true
      · rw [if_pos hcase]
        rfl
      · rw [if_neg hcase]
        rcases hr : dropTrailing p rest with _ | ⟨d, t2⟩
        · have hpc : p c = false := by
            rw [hr] at hcase
            simpa using hcase
          simp [lastCharNot, hpc]
        · have hlast := dropTrailing_last p rest
          rw [hr] at hlast
          simpa [lastCharNot] using hlast

theorem dropTrailing_id (p : Char → Bool) :
    ∀ l, lastCharNot p l = true → dropTrailing p l = l
  | [], _ => rfl
  | c :: rest, h => by
      cases rest with
      | nil =>
          have hpc : p c = false := by simpa [lastCharNot] using h
          simp [dropTrailing, hpc]
      | cons d t2 =>
          have hrest := dropTrailing_id p (d :: t2) (by simpa [lastCharNot] using h)
          have hstep : dropTrailing p (c :: d :: t2) =
              (if (dropTrailing p (d :: t2)).isEmpty && p c then []
                else c :: dropTrailing p (d :: t2)) := rfl
          rw [hstep, hrest]
          simp

theorem dropTrailing_first (p q : Char → Bool) :
    ∀ l, firstCharNot q l = true → firstCharNot q (dropTrailing p l) = true
  | [], _ => rfl
  | c :: rest, h => by
      simp only [dropTrailing]
      split
      · rfl
      · simpa [firstCharNot] using h

theorem dropWhile_first (p : Char → Bool) :
    ∀ l : List Char, firstCharNot p (l.dropWhile p) = true
  | [] => rfl
  | c :: rest => by
      by_cases hpc : p c = true
      · simp only [List.dropWhile_cons, hpc, if_true]
        exact dropWhile_first p rest
      · have hpcf : p c = false := by simpa using hpc
        simp [List.dropWhile_cons, hpcf, firstCharNot]

theorem dropWhile_id (p : Char → Bool) (l : List Char)
    (h : firstCharNot p l = true) : l.dropWhile p = l := by
  cases l with
  | nil => rfl
  | cons c rest =>
      have hpc : p c = false := by simpa [firstCharNot] using h
      simp [List.dropWhile_cons, hpc]

theorem mem_dropWhile (p : Char → Bool) (l : List Char) (c : Char)
    (h : c ∈ l.dropWhile p) : c ∈ l := by
  rw [← List.takeWhile_append_dropWhile (p := p) (l := l)]
  exact List.mem_append_right _ h

theorem mem_dropEdge (p : Char → Bool) (l : List Char) (c : Char)
    (h : c ∈ dropEdge p l) : c ∈ l :=
  mem_dropWhile p l c (mem_dropTrailing p _ c h)

theorem dropEdge_first (p : Char → Bool) (l : List Char) :
    firstCharNot p (dropEdge p l) = true :=
  dropTrailing_first p p _ (dropWhile_first p l)

theorem dropEdge_last (p : Char → Bool) (l : List Char) :
    lastCharNot p (dropEdge p l) = true :=
  dropTrailing_last p _

theorem dropEdge_id (p : Char → Bool) (l : List Char)
    (h1 : firstCharNot p l = true) (h2 : lastCharNot p l = true) :
    dropEdge p l = l := by
  unfold dropEdge dropLeading
  rw [dropWhile_id p l h1, dropTrailing_id p l h2]

theorem noDoubleRep_dropEdge (p q : Char → Bool) (l : List Char)
    (h : noDoubleRep p l = true) : noDoubleRep p (dropEdge q l) = true := by
  have h1 : noDoubleRep p (l.dropWhile q) = true := by
    apply noDoubleRep_append_right p (l.takeWhile q)
    rw [List.takeWhile_append_dropWhile]
    exact h
  rcases dropTrailing_append q (l.dropWhile q) with ⟨t, ht⟩
  unfold dropEdge dropLeading
  apply noDoubleRep_append_left p _ t
  rw [← ht]
  exact h1

theorem firstCharNot_of_all (q : Char → Bool) (l : List Char)
    (h : ∀ c ∈ l, q c = false) : firstCharNot q l = true := by
  cases l with
  | nil => rfl
  | cons c rest => simp [firstCharNot, h c (List.mem_cons_self _ _)]

theorem lastCharNot_of_all (q : Char → Bool) :
    ∀ l, (∀ c ∈ l, q c = false) → lastCharNot q l = true
  | [], _ => rfl
  | [c], h => by simp [lastCharNot, h c (List.mem_cons_self _ _)]
  | a :: b :: r, h =>
      lastCharNot_of_all q (b :: r) (fun c hc => h c (List.mem_cons_of_mem _ hc))


/-- Every key of the curated replacement table lies above ASCII. -/
theorem extra_table_big : ∀ p ∈ EXTRA_CHAR_REPLACEMENTS, 127 < p.1.toNat := by decide

/-- Every key of the modelled NFKD table lies above ASCII. -/
theorem nfkd_table_big : ∀ p ∈ NFKD_TABLE, 127 < p.1.toNat := by decide

/-- Every key of the modelled lowercase table lies above ASCII. -/
theorem lower_table_big : ∀ p ∈ LOWER_TABLE, 127 < p.1.toNat := by decide

/-- Association lookup misses every table whose keys are above ASCII when
the probe is an ASCII character. -/
theorem lookup_none_of_le127 {β : Type} (tbl : List (Char × β))
    (hbig : ∀ p ∈ tbl, 127 < p.1.toNat) (c : Char) (hc : c.toNat ≤ 127) :
    List.lookup c tbl = none := by
  induction tbl with
  | nil => rfl
  | cons q rest ih =>
      rcases q with ⟨k, b⟩
      have hne : (c == k) = false := by
        rw [beq_eq_false_iff_ne]
        intro he
        have hk : 127 < k.toNat := hbig (k, b) (List.mem_cons_self _ _)
        rw [← he] at hk
        omega
      simp only [List.lookup, hne]
      exact ih (fun q hq => hbig q (List.mem_cons_of_mem _ hq))

/-- ASCII characters outside A-Z are fixed by the lowercase model. -/
theorem pyLowerChar_fix (c : Char) (hc : c.toNat ≤ 127)
    (hup : ¬ (65 ≤ c.toNat ∧ c.toNat ≤ 90)) : pyLowerChar c = c := by
  unfold pyLowerChar
  have hcond : ¬ ((decide (65 ≤ c.toNat) && decide (c.toNat ≤ 90)) = true) := by
    simp only [Bool.and_eq_true, decide_eq_true_eq]
    exact hup
  rw [if_neg hcond, lookup_none_of_le127 LOWER_TABLE lower_table_big c hc]
  rfl

/-- ASCII characters are NFKD-fixed in the model. -/
theorem nfkdChar_fix (c : Char) (hc : c.toNat ≤ 127) : nfkdChar c = [c] := by
  unfold nfkdChar
  rw [lookup_none_of_le127 NFKD_TABLE nfkd_table_big c hc]

/-- ASCII characters miss the curated replacement table. -/
theorem extra_fix (c : Char) (hc : c.toNat ≤ 127) :
    List.lookup c EXTRA_CHAR_REPLACEMENTS = none :=
  lookup_none_of_le127 EXTRA_CHAR_REPLACEMENTS extra_table_big c hc

/-- ASCII characters are not combining marks. -/
theorem isMn_fix (c : Char) (hc : c.toNat ≤ 127) : isMn c = false := by
  have h1 : decide (768 ≤ c.toNat) = false := by
    rw [decide_eq_false_iff_not]
    omega
  unfold isMn
  rw [h1]
  rfl


/-- Numeric ranges behind keyCharOk. -/
theorem keyCharOk_toNat (c : Char) (h : keyCharOk c = true) :
    (48 ≤ c.toNat ∧ c.toNat ≤ 57) ∨ (97 ≤ c.toNat ∧ c.toNat ≤ 122) ∨ c.toNat = 95 := by
  simp only [keyCharOk, isLowerAlnum, isLowerAlpha, isDigitCh, Bool.or_eq_true,
    Bool.and_eq_true, decide_eq_true_eq, beq_iff_eq] at h
  rcases h with (h | h) | h
  · exact Or.inr (Or.inl h)
  · exact Or.inl h
  · subst h
    exact Or.inr (Or.inr (by decide))

/-- Numeric ranges behind isLowerAlnum. -/
theorem isLowerAlnum_toNat (c : Char) (h : isLowerAlnum c = true) :
    (48 ≤ c.toNat ∧ c.toNat ≤ 57) ∨ (97 ≤ c.toNat ∧ c.toNat ≤ 122) := by
  simp only [isLowerAlnum, isLowerAlpha, isDigitCh, Bool.or_eq_true,
    Bool.and_eq_true, decide_eq_true_eq] at h
  rcases h with h | h
  · exact Or.inr h
  · exact Or.inl h

/-- Code points of the modelled whitespace class. -/
theorem pySpace_toNat (c : Char) (h : isPySpace c = true) :
    c.toNat = 32 ∨ c.toNat = 9 ∨ c.toNat = 10 ∨ c.toNat = 13 ∨
    c.toNat = 11 ∨ c.toNat = 12 := by
  simp only [isPySpace, Bool.or_eq_true, beq_iff_eq] at h
  rcases h with ((((h | h) | h) | h) | h) | h <;> subst h <;> decide

/-- Code points of the [,/_] class. -/
theorem punct_toNat (c : Char) (h : isPunctCls c = true) :
    c.toNat = 44 ∨ c.toNat = 47 ∨ c.toNat = 95 := by
  simp only [isPunctCls, Bool.or_eq_true, beq_iff_eq] at h
  rcases h with (h | h) | h <;> subst h <;> decide

/-- Key characters are not whitespace. -/
theorem keyCharOk_not_space (c : Char) (h : keyCharOk c = true) :
    isPySpace c = false := by
  cases hsp : isPySpace c with
  | false => rfl
  | true =>
      exfalso
      have h1 := pySpace_toNat c hsp
      rcases keyCharOk_toNat c h with h2 | h2 | h2 <;> omega

/-- Alphanumeric characters are not whitespace. -/
theorem isLowerAlnum_not_space (c : Char) (h : isLowerAlnum c = true) :
    isPySpace c = false := by
  cases hsp : isPySpace c with
  | false => rfl
  | true =>
      exfalso
      have h1 := pySpace_toNat c hsp
      rcases isLowerAlnum_toNat c h with h2 | h2 <;> omega

/-- Alphanumeric characters are not in the [,/_] class. -/
theorem isLowerAlnum_not_punct (c : Char) (h : isLowerAlnum c = true) :
    isPunctCls c = false := by
  cases hp : isPunctCls c with
  | false => rfl
  | true =>
      exfalso
      have h1 := punct_toNat c hp
      rcases isLowerAlnum_toNat c h with h2 | h2 <;> omega

/-- Whitespace characters are non-alphanumeric. -/
theorem pySpace_nonAlnum (c : Char) (h : isPySpace c = true) : nonAlnum c = true := by
  unfold nonAlnum
  cases hal : isLowerAlnum c with
  | false => rfl
  | true =>
      exfalso
      rw [isLowerAlnum_not_space c hal] at h
      exact Bool.false_ne_true h

/-- Mapping a function that fixes every member is the identity. -/
theorem map_fix (f : Char → Char) (l : List Char) (h : ∀ c ∈ l, f c = c) :
    l.map f = l := by
  induction l with
  | nil => rfl
  | cons c rest ih =>
      rw [List.map_cons, h c (List.mem_cons_self _ _),
        ih (fun d hd => h d (List.mem_cons_of_mem _ hd))]

/-- flatMap of a pointwise-singleton function is the identity. -/
theorem flatMap_fix (l : List Char) (h : ∀ c ∈ l, nfkdChar c = [c]) :
    l.flatMap nfkdChar = l := by
  induction l with
  | nil => rfl
  | cons c rest ih =>
      rw [List.flatMap_cons, h c (List.mem_cons_self _ _),
        ih (fun d hd => h d (List.mem_cons_of_mem _ hd))]
      rfl

/-- The diacritics filter is the identity on characters that miss both
tables. -/
theorem stripCore_fix (l : List Char)
    (h : ∀ c ∈ l, List.lookup c EXTRA_CHAR_REPLACEMENTS = none ∧ isMn c = false) :
    stripDiacriticsCore l = l := by
  induction l with
  | nil => rfl
  | cons c rest ih =>
      have hc := h c (List.mem_cons_self _ _)
      simp only [stripDiacriticsCore, hc.1, hc.2]
      rw [ih (fun d hd => h d (List.mem_cons_of_mem _ hd))]
      simp

/-- Diacritic stripping is the identity on ASCII strings. -/
theorem stripDiacritics_fix (l : List Char) (h127 : ∀ c ∈ l, c.toNat ≤ 127) :
    stripDiacritics l = l := by
  unfold stripDiacritics
  rw [flatMap_fix l (fun c hc => nfkdChar_fix c (h127 c hc))]
  exact stripCore_fix l (fun c hc => ⟨extra_fix c (h127 c hc), isMn_fix c (h127 c hc)⟩)


/-- Characters surviving the non-alphanumeric collapse are lowercase
alphanumerics or the space separator. -/
theorem searchStage_chars (x : List Char) (c : Char)
    (hc : c ∈ collapseRuns nonAlnum ' ' false x) :
    isLowerAlnum c = true ∨ c = ' ' := by
  rcases collapseRuns_chars nonAlnum ' ' false x c hc with h | h
  · exact Or.inr h
  · left
    have h2 := h.2
    unfold nonAlnum at h2
    simpa using h2

/-- The final whitespace collapse of the search pipeline is the identity:
after the non-alphanumeric collapse no two separators are adjacent. -/
theorem searchStage_space_id (x : List Char) :
    collapseRuns isPySpace ' ' false (collapseRuns nonAlnum ' ' false x) =
      collapseRuns nonAlnum ' ' false x := by
  apply collapseRuns_id
  · exact noDoubleRep_mono nonAlnum isPySpace pySpace_nonAlnum _
      (collapseRuns_noDouble nonAlnum ' ' false x)
  · intro c hc hsp
    rcases searchStage_chars x c hc with h | h
    · exfalso
      rw [isLowerAlnum_not_space c h] at hsp
      exact Bool.false_ne_true hsp
    · exact h

/-- The search-text pipeline with the redundant whitespace collapse
removed. -/
theorem normalizeSearchTextList_eq (l : List Char) :
    normalizeSearchTextList l =
      dropEdge isPySpace (collapseRuns nonAlnum ' ' false
        (collapseRuns isPunctCls ' ' false (stripDiacritics (l.map pyLowerChar)))) := by
  show dropEdge isPySpace (collapseRuns isPySpace ' ' false (collapseRuns nonAlnum ' ' false
      (collapseRuns isPunctCls ' ' false (stripDiacritics (l.map pyLowerChar))))) = _
  rw [searchStage_space_id]

/-- Every character of a normalized search text is a lowercase
alphanumeric or a space. -/
theorem searchText_chars (l : List Char) (c : Char)
    (hc : c ∈ normalizeSearchTextList l) : isLowerAlnum c = true ∨ c = ' ' := by
  rw [normalizeSearchTextList_eq] at hc
  exact searchStage_chars _ c (mem_dropEdge _ _ _ hc)

/-- Normalized search text has no two adjacent non-alphanumerics. -/
theorem searchText_noDouble (l : List Char) :
    noDoubleRep nonAlnum (normalizeSearchTextList l) = true := by
  rw [normalizeSearchTextList_eq]
  exact noDoubleRep_dropEdge nonAlnum isPySpace _
    (collapseRuns_noDouble nonAlnum ' ' false _)

/-- Normalized search text does not start with whitespace. -/
theorem searchText_first (l : List Char) :
    firstCharNot isPySpace (normalizeSearchTextList l) = true := by
  rw [normalizeSearchTextList_eq]
  exact dropEdge_first _ _

/-- Normalized search text does not end with whitespace. -/
theorem searchText_last (l : List Char) :
    lastCharNot isPySpace (normalizeSearchTextList l) = true := by
  rw [normalizeSearchTextList_eq]
  exact dropEdge_last _ _

/-- Search-alphabet characters are ASCII. -/
theorem searchChar_le127 (c : Char) (h : isLowerAlnum c = true ∨ c = ' ') :
    c.toNat ≤ 127 := by
  rcases h with h | h
  · rcases isLowerAlnum_toNat c h with h1 | h1 <;> omega
  · subst h
    decide

/-- Search-alphabet characters are lowercase-fixed. -/
theorem searchChar_lower_fix (c : Char) (h : isLowerAlnum c = true ∨ c = ' ') :
    pyLowerChar c = c := by
  apply pyLowerChar_fix c (searchChar_le127 c h)
  rcases h with h | h
  · rcases isLowerAlnum_toNat c h with h1 | h1 <;> omega
  · subst h
    decide

/-- Search-alphabet characters miss the [,/_] class. -/
theorem searchChar_not_punct (c : Char) (h : isLowerAlnum c = true ∨ c = ' ') :
    isPunctCls c = false := by
  rcases h with h | h
  · exact isLowerAlnum_not_punct c h
  · subst h
    decide

/-- Idempotence of the search-text pipeline on character lists. -/
theorem normalizeSearchTextList_idem (l : List Char) :
    normalizeSearchTextList (normalizeSearchTextList l) = normalizeSearchTextList l := by
  set t := normalizeSearchTextList l with ht
  have hchars : ∀ c ∈ t, isLowerAlnum c = true ∨ c = ' ' := by
    intro c hc
    rw [ht] at hc
    exact searchText_chars l c hc
  have hnd : noDoubleRep nonAlnum t = true := by
    rw [ht]
    exact searchText_noDouble l
  have hfirst : firstCharNot isPySpace t = true := by
    rw [ht]
    exact searchText_first l
  have hlast : lastCharNot isPySpace t = true := by
    rw [ht]
    exact searchText_last l
  have hAl : ∀ c ∈ t, nonAlnum c = true → c = ' ' := by
    intro c hc hna
    rcases hchars c hc with h | h
    · exfalso
      unfold nonAlnum at hna
      rw [h] at hna
      simp at hna
    · exact h
  have hSp : ∀ c ∈ t, isPySpace c = true → c = ' ' := by
    intro c hc hsp
    rcases hchars c hc with h | h
    · exfalso
      rw [isLowerAlnum_not_space c h] at hsp
      exact Bool.false_ne_true hsp
    · exact h
  have hndSp : noDoubleRep isPySpace t = true :=
    noDoubleRep_mono nonAlnum isPySpace pySpace_nonAlnum t hnd
  show dropEdge isPySpace (collapseRuns isPySpace ' ' false (collapseRuns nonAlnum ' ' false
      (collapseRuns isPunctCls ' ' false (stripDiacritics (t.map pyLowerChar))))) = t
  rw [map_fix pyLowerChar t (fun c hc => searchChar_lower_fix c (hchars c hc))]
  rw [stripDiacritics_fix t (fun c hc => searchChar_le127 c (hchars c hc))]
  rw [collapseRuns_nop isPunctCls ' ' false t
    (fun c hc => searchChar_not_punct c (hchars c hc))]
  rw [collapseRuns_id nonAlnum ' ' t hnd hAl]
  rw [collapseRuns_id isPySpace ' ' t hndSp hSp]
  exact dropEdge_id isPySpace t hfirst hlast

/-- Every character of a normalized key is in [a-z0-9_]. -/
theorem keyList_chars (l : List Char) (c : Char) (hc : c ∈ normalizeKeyList l) :
    keyCharOk c = true := by
  have h1 : c ∈ collapseRuns underscoreCh '_' false
      ((stripDiacritics ((dropEdge isPySpace l).map pyLowerChar)).map
        (fun c => if keyCharOk c then c else '_')) := mem_dropEdge _ _ _ hc
  rcases collapseRuns_chars underscoreCh '_' false _ c h1 with h2 | h2
  · rw [h2]
    decide
  · rcases List.mem_map.mp h2.1 with ⟨d, _, hmap⟩
    by_cases hk : keyCharOk d = true
    · rw [← hmap, if_pos hk]
      exact hk
    · rw [← hmap, if_neg hk]
      decide

/-- Normalized keys have no two adjacent underscores. -/
theorem keyList_noDouble (l : List Char) :
    noDoubleRep underscoreCh (normalizeKeyList l) = true :=
  noDoubleRep_dropEdge underscoreCh underscoreCh _
    (collapseRuns_noDouble underscoreCh '_' false _)

/-- Normalized keys do not start with an underscore. -/
theorem keyList_first (l : List Char) :
    firstCharNot underscoreCh (normalizeKeyList l) = true :=
  dropEdge_first _ _

/-- Normalized keys do not end with an underscore. -/
theorem keyList_last (l : List Char) :
    lastCharNot underscoreCh (normalizeKeyList l) = true :=
  dropEdge_last _ _

/-- Key-alphabet characters are ASCII. -/
theorem keyCharOk_le127 (c : Char) (h : keyCharOk c = true) : c.toNat ≤ 127 := by
  rcases keyCharOk_toNat c h with h1 | h1 | h1 <;> omega

/-- Key-alphabet characters are lowercase-fixed. -/
theorem keyCharOk_lower_fix (c : Char) (h : keyCharOk c = true) :
    pyLowerChar c = c := by
  apply pyLowerChar_fix c (keyCharOk_le127 c h)
  rcases keyCharOk_toNat c h with h1 | h1 | h1 <;> omega

/-- Idempotence of the key pipeline on character lists. -/
theorem normalizeKeyList_idem (l : List Char) :
    normalizeKeyList (normalizeKeyList l) = normalizeKeyList l := by
  set t := normalizeKeyList l with ht
  have hchars : ∀ c ∈ t, keyCharOk c = true := by
    intro c hc
    rw [ht] at hc
    exact keyList_chars l c hc
  have hnd : noDoubleRep underscoreCh t = true := by
    rw [ht]
    exact keyList_noDouble l
  have hfirst : firstCharNot underscoreCh t = true := by
    rw [ht]
    exact keyList_first l
  have hlast : lastCharNot underscoreCh t = true := by
    rw [ht]
    exact keyList_last l
  have hnospace : ∀ c ∈ t, isPySpace c = false :=
    fun c hc => keyCharOk_not_space c (hchars c hc)
  have hUsc : ∀ c ∈ t, underscoreCh c = true → c = '_' :=
    fun c hc h => eq_of_beq h
  show dropEdge underscoreCh (collapseRuns underscoreCh '_' false
      ((stripDiacritics ((dropEdge isPySpace t).map pyLowerChar)).map
        (fun c => if keyCharOk c then c else '_'))) = t
  rw [dropEdge_id isPySpace t (firstCharNot_of_all isPySpace t hnospace)
    (lastCharNot_of_all isPySpace t hnospace)]
  rw [map_fix pyLowerChar t (fun c hc => keyCharOk_lower_fix c (hchars c hc))]
  rw [stripDiacritics_fix t (fun c hc => keyCharOk_le127 c (hchars c hc))]
  rw [map_fix (fun c => if keyCharOk c then c else '_') t
    (fun c hc => by simp [hchars c hc])]
  rw [collapseRuns_id underscoreCh '_' t hnd hUsc]
  exact dropEdge_id underscoreCh t hfirst hlast

/-- Building a string from a character list and listing it back is the
identity. -/
theorem toList_mk (l : List Char) : (String.mk l).toList = l := rfl

/-- C9: normalization is deterministic and idempotent — re-normalizing an
already-normalized key or search text returns it unchanged, for every
input string. -/
theorem C9_normalization_idempotent :
    (∀ s : String, normalizeKey (normalizeKey s) = normalizeKey s) ∧
    (∀ s : String, normalizeSearchText (normalizeSearchText s) = normalizeSearchText s) := by
  constructor
  · intro s
    unfold normalizeKey
    rw [toList_mk, normalizeKeyList_idem]
  · intro s
    unfold normalizeSearchText
    rw [toList_mk, normalizeSearchTextList_idem]

end MemSpec
